import Mathlib

/-!
Shallow embedding of the Nilotic Network blockchain core
(`include/core/transaction.h`, `include/core/block.h`,
`include/core/blockchain.h`, `src/core/mining.cpp`, `src/core/porc.cpp`,
`IMPROVED_TRANSACTION_SPEED.cpp`) and proofs about the claims of the
specification.

Modelling conventions:
* C++ `double` values (amounts, rewards, fees) are modelled as `ℚ`.
* `std::string` is `String`; `time_t` is `Int`; `uint64_t` is `Nat`,
  with an explicit `% 2 ^ 64` wherever overflow can matter.
* `std::map<std::string, T>` is an association list `List (String × T)`
  with unique keys; `operator[]` default-inserts as in the source.
* SHA-256 is abstracted: functions that hash take the digest function as
  an explicit parameter, because the claims only use digest equality.
-/

namespace Nilotic

/-- The C++ `Transaction` class fields (`include/core/transaction.h`). -/
structure Transaction where
  sender : String
  recipient : String
  amount : ℚ
  timestamp : Int
  hash : String
  signature : String
  isOffline : Bool
  contractCode : String
  contractState : String
  deriving Repr, DecidableEq

/-- `Transaction::calculateHash`: data fed to SHA-256.  `fmt` abstracts the
`ostream` rendering of the `double` amount. -/
def Transaction.hashData (fmt : ℚ → String) (t : Transaction) : String :=
  t.sender ++ t.recipient ++ fmt t.amount ++ toString t.timestamp ++
    (if t.contractCode ≠ "" then "CONTRACT:" ++ t.contractCode else "") ++
    "OFFLINE:" ++ (if t.isOffline then "true" else "false")

/-- `Transaction::calculateHash`, with the SHA-256 oracle `sha` explicit. -/
def Transaction.calculateHash (sha : String → String) (fmt : ℚ → String)
    (t : Transaction) : String :=
  sha (t.hashData fmt)

/-- `Transaction::verifySignature`: COINBASE is always valid, otherwise any
non-empty signature is accepted (the source's placeholder check). -/
def Transaction.verifySignature (t : Transaction) : Bool :=
  if t.sender = "COINBASE" then true
  else t.signature ≠ ""

/-- `Transaction::isValid` (`include/core/transaction.h`, lines 95-113). -/
def Transaction.isValid (t : Transaction) : Bool :=
  if t.sender = "" ∨ t.amount < 0 then false
  else if t.isOffline = false ∧ t.recipient = "" then false
  else if t.sender = "COINBASE" then true
  else t.verifySignature

end Nilotic

namespace Nilotic

/-- `std::map::find` on an association list. -/
def balFind? : List (String × ℚ) → String → Option ℚ
  | [], _ => none
  | p :: rest, k => if p.1 = k then some p.2 else balFind? rest k

/-- `map[k] = v`: overwrite the entry for `k`, inserting it if absent. -/
def balSet : List (String × ℚ) → String → ℚ → List (String × ℚ)
  | [], k, v => [(k, v)]
  | p :: rest, k, v => if p.1 = k then (k, v) :: rest else p :: balSet rest k v

/-- `map[k] += v`: `operator[]` default-inserts `0` and then adds. -/
def balAdd (m : List (String × ℚ)) (k : String) (v : ℚ) : List (String × ℚ) :=
  balSet m k ((balFind? m k).getD 0 + v)

/-- `map[k] = v` on the contracts map. -/
def ctrSet : List (String × String) → String → String →
    List (String × String)
  | [], k, v => [(k, v)]
  | p :: rest, k, v =>
      if p.1 = k then (k, v) :: rest else p :: ctrSet rest k v

/-- The C++ `Block` class fields (`include/core/block.h`). -/
structure Block where
  index : Nat
  previousHash : String
  timestamp : Int
  transactions : List Transaction
  merkleRoot : String
  nonce : Nat
  hash : String
  validator : String
  signature : String
  deriving Repr, DecidableEq

instance : Inhabited Block :=
  ⟨{ index := 0, previousHash := "", timestamp := 0, transactions := [],
     merkleRoot := "", nonce := 0, hash := "", validator := "",
     signature := "" }⟩

/-- The mutable state of the C++ `Blockchain` class
(`include/core/blockchain.h`). -/
structure BCState where
  chain : List Block
  pendingTransactions : List Transaction
  difficulty : Nat
  miningReward : ℚ
  balances : List (String × ℚ)
  contracts : List (String × String)
  validators : List (String × ℚ)
  deriving Repr, DecidableEq

/-- `Blockchain::getLatestBlock` (`chain.back()`; the constructor
guarantees a non-empty chain). -/
def getLatestBlock (s : BCState) : Block :=
  s.chain.getLastD default

/-- `Blockchain::getBalance`: the stored balance, `0.0` if unseen. -/
def getBalance (s : BCState) (address : String) : ℚ :=
  (balFind? s.balances address).getD 0

/-- `Blockchain::processTransaction` (`include/core/blockchain.h`,
lines 101-156): returns the C++ `bool` and the updated state. -/
def processTransaction (s : BCState) (tx : Transaction) : Bool × BCState :=
  if tx.isValid = false then (false, s)
  else if tx.sender = "COINBASE" then
    (true, { s with balances := balAdd s.balances tx.recipient tx.amount })
  else if balFind? s.balances tx.sender = none ∨
      (balFind? s.balances tx.sender).getD 0 < tx.amount then
    (false, s)
  else if tx.recipient = "CONTRACT" ∧ tx.contractCode ≠ "" then
    (true, { s with
        contracts := ctrSet s.contracts ("CONTRACT-" ++ tx.hash.take 10)
          tx.contractCode })
  else
    let m1 := balAdd s.balances tx.sender (-tx.amount)
    let m2 := if balFind? m1 tx.recipient = none then balSet m1 tx.recipient 0
              else m1
    (true, { s with balances := balAdd m2 tx.recipient tx.amount })

/-- The `for` loop of `Blockchain::addBlock` over a block's transactions;
the `bool` that `processTransaction` returns is discarded, as in the
source. -/
def applyBlockTxs (s : BCState) (txs : List Transaction) : BCState :=
  txs.foldl (fun st t => (processTransaction st t).2) s

/-- The difficulty target `std::string(difficulty, '0')`. -/
def zeroTarget (d : Nat) : String :=
  String.mk (List.replicate d '0')

/-- `Blockchain::addBlock` (`include/core/blockchain.h`, lines 66-98). -/
def addBlock (s : BCState) (newBlock : Block) : Bool × BCState :=
  if newBlock.previousHash ≠ (getLatestBlock s).hash then (false, s)
  else if newBlock.index ≠ (getLatestBlock s).index + 1 then (false, s)
  else if newBlock.hash.take s.difficulty ≠ zeroTarget s.difficulty then
    (false, s)
  else
    let s' := applyBlockTxs s newBlock.transactions
    (true, { s' with chain := s'.chain ++ [newBlock] })

/-- `Blockchain::addTransaction` (`include/core/blockchain.h`,
lines 159-181): admission into the pending pool. -/
def addTransaction (s : BCState) (tx : Transaction) : Bool × BCState :=
  if tx.isValid = false then (false, s)
  else if tx.sender ≠ "COINBASE" ∧
      (balFind? s.balances tx.sender = none ∨
        (balFind? s.balances tx.sender).getD 0 < tx.amount) then
    (false, s)
  else (true, { s with pendingTransactions := s.pendingTransactions ++ [tx] })

/-- Every branch of `processTransaction` only touches balances and
contracts: the chain is untouched. -/
theorem processTransaction_chain (s : BCState) (t : Transaction) :
    (processTransaction s t).2.chain = s.chain := by
  unfold processTransaction
  split_ifs <;> rfl

/-- `processTransaction` leaves the pending pool untouched. -/
theorem processTransaction_pending (s : BCState) (t : Transaction) :
    (processTransaction s t).2.pendingTransactions = s.pendingTransactions := by
  unfold processTransaction
  split_ifs <;> rfl

theorem applyBlockTxs_chain (txs : List Transaction) (s : BCState) :
    (applyBlockTxs s txs).chain = s.chain := by
  induction txs generalizing s with
  | nil => rfl
  | cons t rest ih =>
      simpa [applyBlockTxs] using
        (ih (processTransaction s t).2).trans (processTransaction_chain s t)

/-- C1 (amended): `Blockchain::addBlock` rejects with no state change when
the previous hash, the index, or the difficulty prefix is wrong; when all
three checks pass it returns `true` and appends the block after folding
`processTransaction` over its transactions — and a transaction whose
sender lacks the funds merely reports `false` and changes nothing, so the
block is still appended. -/
theorem c1_addBlock_amended (s : BCState) (b : Block) :
    (b.previousHash ≠ (getLatestBlock s).hash ∨
      b.index ≠ (getLatestBlock s).index + 1 ∨
      b.hash.take s.difficulty ≠ zeroTarget s.difficulty →
        addBlock s b = (false, s)) ∧
    (b.previousHash = (getLatestBlock s).hash →
      b.index = (getLatestBlock s).index + 1 →
      b.hash.take s.difficulty = zeroTarget s.difficulty →
        (addBlock s b).1 = true ∧
        (addBlock s b).2.chain = s.chain ++ [b] ∧
        (addBlock s b).2.balances = (applyBlockTxs s b.transactions).balances) ∧
    (∀ t : Transaction, t.isValid = true → t.sender ≠ "COINBASE" →
      balFind? s.balances t.sender = none ∨
        (balFind? s.balances t.sender).getD 0 < t.amount →
      processTransaction s t = (false, s)) := by
  refine ⟨?_, ?_, ?_⟩
  · intro h
    unfold addBlock
    rcases h with h | h | h
    · simp [h]
    · by_cases h1 : b.previousHash ≠ (getLatestBlock s).hash <;> simp [h, h1]
    · by_cases h1 : b.previousHash ≠ (getLatestBlock s).hash <;>
        by_cases h2 : b.index ≠ (getLatestBlock s).index + 1 <;>
        simp [h, h1, h2]
  · intro h1 h2 h3
    unfold addBlock
    simp [h1, h2, h3, applyBlockTxs_chain]
  · intro t hv hcb hins
    unfold processTransaction
    simp only [hv, Bool.true_eq_false, if_false, hcb, if_neg hcb, hins,
      if_true]

/-- Genesis-style block for the C1 counterexample. -/
def c1Genesis : Block :=
  { index := 0, previousHash := "0", timestamp := 100,
    transactions := [], merkleRoot := "0", nonce := 0, hash := "G",
    validator := "", signature := "" }

/-- A ledger holding only the genesis block and the GENESIS balance. -/
def c1State : BCState :=
  { chain := [c1Genesis], pendingTransactions := [], difficulty := 4,
    miningReward := 100, balances := [("GENESIS", 1000)], contracts := [],
    validators := [] }

/-- A signed transfer from ALICE, who has no balance at all. -/
def c1BadTx : Transaction :=
  { sender := "ALICE", recipient := "BOB", amount := 5, timestamp := 0,
    hash := "t1", signature := "sig", isOffline := false,
    contractCode := "", contractState := "" }

/-- A block extending `c1Genesis` that passes every `addBlock` check but
contains `c1BadTx`, which would drive ALICE's balance below zero. -/
def c1Block : Block :=
  { index := 1, previousHash := "G", timestamp := 200,
    transactions := [c1BadTx], merkleRoot := "m", nonce := 7,
    hash := "0000ab", validator := "", signature := "" }

/-- C1 counterexample: `c1Block` is otherwise acceptable but carries a
transaction whose (non-COINBASE) sender cannot cover the amount; the claim
says `addBlock` fails with no state change, yet the code returns `true`
and appends the block, because the result of `processTransaction` is
discarded. -/
theorem c1_claim_false :
    (addBlock c1State c1Block).1 = true ∧
    (addBlock c1State c1Block).2.chain = c1State.chain ++ [c1Block] ∧
    c1BadTx ∈ c1Block.transactions ∧
    c1BadTx.isValid = true ∧
    c1BadTx.sender ≠ "COINBASE" ∧
    getBalance c1State c1BadTx.sender < c1BadTx.amount := by
  refine ⟨by decide, by decide, by decide, by decide, by decide, by decide⟩

/-- C1 witness: the amended theorem applied at concrete inputs — a block
with a wrong previous hash is rejected without state change, and
`c1Block`, which passes the checks, is appended. -/
theorem c1_addBlock_amended_witness :
    addBlock c1State { c1Block with previousHash := "X" } =
      (false, c1State) ∧
    (addBlock c1State c1Block).1 = true := by
  constructor
  · exact (c1_addBlock_amended c1State _).1 (Or.inl (by decide))
  · exact ((c1_addBlock_amended c1State c1Block).2.1 (by decide) (by decide)
      (by decide)).1

theorem balFind?_balSet (m : List (String × ℚ)) (k : String) (v : ℚ)
    (a : String) :
    balFind? (balSet m k v) a = if k = a then some v else balFind? m a := by
  induction m with
  | nil => by_cases h : k = a <;> simp [balSet, balFind?, h]
  | cons p rest ih =>
      by_cases hp : p.1 = k
      · by_cases h : k = a
        · simp [balSet, balFind?, hp, h]
        · have hpa : ¬p.1 = a := fun hh => h (hp.symm.trans hh)
          simp [balSet, balFind?, hp, h, hpa]
      · by_cases hpa : p.1 = a
        · have hk : ¬k = a := fun hh => hp (hpa.trans hh.symm)
          have hak : ¬a = k := fun hh => hp (hpa.trans hh)
          simp [balSet, balFind?, hp, hpa, hk, hak]
        · simp [balSet, balFind?, hp, hpa, ih]

theorem balFind?_balAdd (m : List (String × ℚ)) (k : String) (v : ℚ)
    (a : String) :
    balFind? (balAdd m k v) a =
      if k = a then some ((balFind? m k).getD 0 + v) else balFind? m a := by
  unfold balAdd
  exact balFind?_balSet m k _ a

theorem getD_balAdd (m : List (String × ℚ)) (k : String) (v : ℚ)
    (a : String) :
    (balFind? (balAdd m k v) a).getD 0 =
      (balFind? m a).getD 0 + if k = a then v else 0 := by
  rw [balFind?_balAdd]
  by_cases h : k = a
  · subst h
    rw [if_pos rfl, if_pos rfl]
    simp
  · rw [if_neg h, if_neg h]
    simp

end Nilotic

namespace Nilotic

/-- `InstantConfirmation::INSTANT_LIMIT` (10.0 NIL). -/
def INSTANT_LIMIT : ℚ := 10

/-- `InstantConfirmation::canProcessInstantly`
(`IMPROVED_TRANSACTION_SPEED.cpp`, lines 38-42). -/
def canProcessInstantly (t : Transaction) : Bool :=
  decide (t.amount ≤ INSTANT_LIMIT ∧ t.sender ≠ "COINBASE" ∧
    t.isOffline = false)

/-- Modelled from the spec: `Blockchain::updateBalance` is called by
`InstantConfirmation::processInstantTransaction` but is declared nowhere
under src/.  The spec says the fast path "performs the debit+credit
atomically under the chain lock", so `updateBalance a δ` adds `δ` to
`balances[a]` (default-inserting 0). -/
def updateBalance (s : BCState) (address : String) (delta : ℚ) : BCState :=
  { s with balances := balAdd s.balances address delta }

/-- `InstantConfirmation::processInstantTransaction`
(`IMPROVED_TRANSACTION_SPEED.cpp`, lines 44-67). -/
def processInstantTransaction (s : BCState) (t : Transaction) :
    Bool × BCState :=
  if canProcessInstantly t = false then (false, s)
  else if getBalance s t.sender < t.amount then (false, s)
  else
    (true, updateBalance (updateBalance s t.sender (-t.amount))
      t.recipient t.amount)

/-- C3: the fast path succeeds exactly when the amount is within the
instant limit, the sender is not COINBASE, the offline flag is clear and
the sender's balance covers the amount; on success it debits the sender,
credits the recipient, and leaves chain and mempool untouched; on failure
it changes nothing. -/
theorem c3_instant (s : BCState) (t : Transaction) :
    ((processInstantTransaction s t).1 = true ↔
      (t.amount ≤ INSTANT_LIMIT ∧ t.sender ≠ "COINBASE" ∧
        t.isOffline = false ∧ t.amount ≤ getBalance s t.sender)) ∧
    ((processInstantTransaction s t).1 = true →
      (∀ a, getBalance (processInstantTransaction s t).2 a =
        getBalance s a + (if a = t.recipient then t.amount else 0) -
          (if a = t.sender then t.amount else 0)) ∧
      (processInstantTransaction s t).2.chain = s.chain ∧
      (processInstantTransaction s t).2.pendingTransactions =
        s.pendingTransactions) ∧
    ((processInstantTransaction s t).1 = false →
      (processInstantTransaction s t).2 = s) := by
  by_cases hq : t.amount ≤ INSTANT_LIMIT ∧ t.sender ≠ "COINBASE" ∧
      t.isOffline = false
  · have hq' : canProcessInstantly t = true := by
      simp [canProcessInstantly, hq]
    by_cases hb : getBalance s t.sender < t.amount
    · have heq : processInstantTransaction s t = (false, s) := by
        unfold processInstantTransaction
        rw [if_neg (by simp [hq']), if_pos hb]
      rw [heq]
      refine ⟨?_, ?_, ?_⟩
      · constructor
        · intro hcontr
          exact Bool.noConfusion hcontr
        · rintro ⟨-, -, -, hge⟩
          exact absurd hb (not_lt.mpr hge)
      · intro h
        exact Bool.noConfusion h
      · intro _
        rfl
    · have heq : processInstantTransaction s t =
          (true, updateBalance (updateBalance s t.sender (-t.amount))
            t.recipient t.amount) := by
        unfold processInstantTransaction
        rw [if_neg (by simp [hq']), if_neg hb]
      rw [heq]
      refine ⟨by simpa [hq] using not_lt.mp hb, ?_, ?_⟩
      · intro _
        refine ⟨?_, rfl, rfl⟩
        intro a
        show (balFind? (balAdd (balAdd s.balances t.sender (-t.amount))
          t.recipient t.amount) a).getD 0 = _
        rw [getD_balAdd, getD_balAdd]
        unfold getBalance
        by_cases hr : t.recipient = a <;> by_cases hsn : t.sender = a
        · rw [if_pos hr, if_pos hsn, if_pos hr.symm, if_pos hsn.symm]
          ring
        · rw [if_pos hr, if_neg hsn, if_pos hr.symm,
            if_neg (fun h => hsn h.symm)]
          ring
        · rw [if_neg hr, if_pos hsn, if_neg (fun h => hr h.symm),
            if_pos hsn.symm]
          ring
        · rw [if_neg hr, if_neg hsn, if_neg (fun h => hr h.symm),
            if_neg (fun h => hsn h.symm)]
          ring
      · intro h
        exact Bool.noConfusion h
  · have hq' : canProcessInstantly t = false := by
      simpa [canProcessInstantly] using hq
    have heq : processInstantTransaction s t = (false, s) := by
      unfold processInstantTransaction
      rw [if_pos hq']
    rw [heq]
    refine ⟨?_, ?_, ?_⟩
    · constructor
      · intro hcontr
        exact Bool.noConfusion hcontr
      · rintro ⟨h1, h2, h3, -⟩
        exact absurd ⟨h1, h2, h3⟩ hq
    · intro h
      exact Bool.noConfusion h
    · intro _
      rfl

/-- Genesis-style block for the C3 witness's ledger. -/
def c3Genesis : Block :=
  { index := 0, previousHash := "0", timestamp := 0, transactions := [],
    merkleRoot := "0", nonce := 0, hash := "G", validator := "",
    signature := "" }

/-- Concrete ledger for the C3 witness: GENESIS holds 1000. -/
def c3State : BCState :=
  { chain := [c3Genesis],
    pendingTransactions := [], difficulty := 4, miningReward := 100,
    balances := [("GENESIS", 1000)], contracts := [], validators := [] }

/-- A small transfer GENESIS → BOB of 5 NIL, eligible for the fast path. -/
def c3Tx : Transaction :=
  { sender := "GENESIS", recipient := "BOB", amount := 5, timestamp := 0,
    hash := "t3", signature := "sig", isOffline := false,
    contractCode := "", contractState := "" }

/-- C3 witness: at the concrete ledger the fast path succeeds, GENESIS
drops to 995, BOB rises to 5, and the chain is unchanged. -/
theorem c3_instant_witness :
    (processInstantTransaction c3State c3Tx).1 = true ∧
    getBalance (processInstantTransaction c3State c3Tx).2 "GENESIS" = 995 ∧
    getBalance (processInstantTransaction c3State c3Tx).2 "BOB" = 5 ∧
    (processInstantTransaction c3State c3Tx).2.chain = c3State.chain := by
  have h := c3_instant c3State c3Tx
  have hbalG : getBalance c3State "GENESIS" = 1000 := by
    unfold getBalance
    rw [show balFind? c3State.balances "GENESIS" = some 1000 from by decide]
    rfl
  have hbalB : getBalance c3State "BOB" = 0 := by
    unfold getBalance
    rw [show balFind? c3State.balances "BOB" = none from by decide]
    rfl
  have hs : (processInstantTransaction c3State c3Tx).1 = true := by
    refine h.1.mpr ⟨by norm_num [c3Tx, INSTANT_LIMIT], by decide, by decide,
      ?_⟩
    show c3Tx.amount ≤ getBalance c3State c3Tx.sender
    rw [show c3Tx.sender = "GENESIS" from rfl, hbalG]
    norm_num [c3Tx]
  obtain ⟨hbal, hchain, -⟩ := h.2.1 hs
  refine ⟨hs, ?_, ?_, hchain⟩
  · rw [hbal "GENESIS", if_neg (by decide), if_pos (by decide), hbalG]
    norm_num [c3Tx]
  · rw [hbal "BOB", if_pos (by decide), if_neg (by decide), hbalB]
    norm_num [c3Tx]

end Nilotic

namespace Nilotic

/-- C7: the specification's validity predicate, written from its words:
"a transaction is valid iff sender non-empty, amount ≥ 0, and either
sender==COINBASE or the signature verifies against the sender's declared
key".  Used only to compare against `Transaction.isValid`. -/
def specValid (t : Transaction) : Prop :=
  t.sender ≠ "" ∧ 0 ≤ t.amount ∧
    (t.sender = "COINBASE" ∨ t.verifySignature = true)

/-- A COINBASE transaction with an empty recipient and the offline flag
clear: the code rejects it, the spec sentence accepts it. -/
def c7tx : Transaction :=
  { sender := "COINBASE", recipient := "", amount := 5, timestamp := 0,
    hash := "h", signature := "", isOffline := false,
    contractCode := "", contractState := "" }

/-- C7 counterexample: `Transaction::isValid` is not the biconditional the
claim states: the transaction `c7tx` satisfies the claim's right-hand side
(sender "COINBASE" is non-empty, amount 5 ≥ 0) yet `isValid` returns
`false`, because the code additionally rejects a non-offline transaction
whose recipient is empty. -/
theorem c7_claim_false :
    c7tx.isValid = false ∧ specValid c7tx := by
  refine ⟨by decide, ?_, by norm_num [c7tx], Or.inl rfl⟩
  decide

/-- C7 (amended): `Transaction::isValid` returns `true` iff the sender is
non-empty, the amount is non-negative, the transaction is offline or has a
non-empty recipient, and either the sender is COINBASE or the signature
verifies. -/
theorem c7_isValid_iff (t : Transaction) :
    t.isValid = true ↔
      (t.sender ≠ "" ∧ 0 ≤ t.amount ∧
        (t.isOffline = true ∨ t.recipient ≠ "") ∧
        (t.sender = "COINBASE" ∨ t.verifySignature = true)) := by
  have hoffRec : ¬(t.isOffline = false ∧ t.recipient = "") →
      (t.isOffline = true ∨ t.recipient ≠ "") := by
    intro h2
    rcases Bool.eq_false_or_eq_true t.isOffline with hb | hb
    · exact Or.inl hb
    · exact Or.inr fun hr => h2 ⟨hb, hr⟩
  unfold Transaction.isValid
  split_ifs with h1 h2 h3
  · constructor
    · intro h; cases h
    · rintro ⟨hs, ha, -, -⟩
      rcases h1 with h | h
      · exact absurd h hs
      · exact absurd ha (not_le.mpr h)
  · constructor
    · intro h; cases h
    · rintro ⟨-, -, hoff, -⟩
      rcases hoff with hoff | hoff
      · rw [h2.1] at hoff; cases hoff
      · exact absurd h2.2 hoff
  · push_neg at h1
    constructor
    · intro _
      exact ⟨h1.1, h1.2, hoffRec h2, Or.inl h3⟩
    · intro _; rfl
  · push_neg at h1
    constructor
    · intro hv
      exact ⟨h1.1, h1.2, hoffRec h2, Or.inr hv⟩
    · rintro ⟨-, -, -, hv | hv⟩
      · exact absurd hv h3
      · exact hv

end Nilotic

namespace Nilotic

/-- `MiningEngine::addTransaction` (`src/core/mining.cpp`, lines 185-198):
the mining queue rejects a transaction whose recomputed content-hash is
already present, otherwise appends it. -/
def MiningEngine.addTransaction (sha : String → String) (fmt : ℚ → String)
    (queue : List Transaction) (t : Transaction) :
    Bool × List Transaction :=
  if queue.any (fun tx =>
      tx.calculateHash sha fmt = t.calculateHash sha fmt) then
    (false, queue)
  else (true, queue ++ [t])

/-- C5 (amended): duplicate suppression holds for the `MiningEngine`
queue: a transaction whose content-hash is already queued is rejected with
the queue unchanged, and admission preserves the no-duplicate-hash
invariant.  (`Blockchain::addTransaction` performs no such check — see the
counterexample.) -/
theorem c5_mining_queue_nodup (sha : String → String) (fmt : ℚ → String)
    (q : List Transaction) (t : Transaction) :
    ((∃ tx ∈ q, tx.calculateHash sha fmt = t.calculateHash sha fmt) →
      MiningEngine.addTransaction sha fmt q t = (false, q)) ∧
    ((q.map (Transaction.calculateHash sha fmt)).Nodup →
      (((MiningEngine.addTransaction sha fmt q t).2).map
        (Transaction.calculateHash sha fmt)).Nodup) := by
  constructor
  · intro hdup
    unfold MiningEngine.addTransaction
    rw [if_pos]
    rw [List.any_eq_true]
    obtain ⟨tx, htx, hh⟩ := hdup
    exact ⟨tx, htx, decide_eq_true hh⟩
  · intro hnd
    unfold MiningEngine.addTransaction
    by_cases hany : q.any (fun tx =>
        tx.calculateHash sha fmt = t.calculateHash sha fmt) = true
    · rw [if_pos hany]
      exact hnd
    · rw [if_neg hany]
      have hnin : ∀ tx ∈ q,
          tx.calculateHash sha fmt ≠ t.calculateHash sha fmt := by
        intro tx htx heq
        exact hany (List.any_eq_true.mpr ⟨tx, htx, decide_eq_true heq⟩)
      simp only [List.map_append, List.map_cons, List.map_nil]
      rw [List.nodup_append]
      refine ⟨hnd, List.nodup_singleton _, ?_⟩
      intro x hx hx'
      simp only [List.mem_singleton] at hx'
      obtain ⟨tx, htx, rfl⟩ := List.mem_map.mp hx
      exact hnin tx htx (hx' ▸ rfl)

/-- Genesis-style block for the C5 counterexample's ledger. -/
def c5Genesis : Block :=
  { index := 0, previousHash := "0", timestamp := 0, transactions := [],
    merkleRoot := "0", nonce := 0, hash := "G", validator := "",
    signature := "" }

/-- Ledger for the C5 counterexample: GENESIS holds 1000. -/
def c5State : BCState :=
  { chain := [c5Genesis],
    pendingTransactions := [], difficulty := 4, miningReward := 100,
    balances := [("GENESIS", 1000)], contracts := [], validators := [] }

/-- A valid transfer GENESIS → ALICE of 5 NIL. -/
def c5Tx : Transaction :=
  { sender := "GENESIS", recipient := "ALICE", amount := 5, timestamp := 0,
    hash := "t5", signature := "sig", isOffline := false,
    contractCode := "", contractState := "" }

/-- C5 counterexample: `Blockchain::addTransaction` admits the very same
transaction twice — it never looks at the pool — so afterwards the
mempool holds two transactions with equal content-hash, refuting the
claimed rejection and the claimed invariant. -/
theorem c5_claim_false :
    (addTransaction c5State c5Tx).1 = true ∧
    (addTransaction (addTransaction c5State c5Tx).2 c5Tx).1 = true ∧
    (addTransaction (addTransaction c5State c5Tx).2
        c5Tx).2.pendingTransactions = [c5Tx, c5Tx] ∧
    ¬ ((addTransaction (addTransaction c5State c5Tx).2
        c5Tx).2.pendingTransactions.map Transaction.hash).Nodup := by
  refine ⟨by decide, by decide, by decide, by decide⟩

/-- C5 witness: the amended theorem at a concrete queue — re-admitting a
queued transaction is rejected, and the empty queue stays duplicate-free
after one admission. -/
theorem c5_mining_queue_nodup_witness :
    MiningEngine.addTransaction (fun s => s) (fun _ => "") [c5Tx] c5Tx =
      (false, [c5Tx]) ∧
    ((MiningEngine.addTransaction (fun s => s) (fun _ => "") [] c5Tx).2.map
      (Transaction.calculateHash (fun s => s) (fun _ => ""))).Nodup := by
  constructor
  · exact (c5_mining_queue_nodup (fun s => s) (fun _ => "") [c5Tx] c5Tx).1
      ⟨c5Tx, by decide, rfl⟩
  · exact (c5_mining_queue_nodup (fun s => s) (fun _ => "") [] c5Tx).2
      (by decide)

end Nilotic

namespace Nilotic

/-- `MiningConfig` defaults (`include/core/mining.h`, lines 19-33). -/
structure MiningConfig where
  targetDifficulty : Nat := 4
  maxDifficulty : Nat := 8
  minDifficulty : Nat := 2
  targetBlockTime : Nat := 600
  maxBlockSize : Nat := 1024 * 1024
  maxTransactionsPerBlock : Nat := 1000
  miningReward : ℚ := 100
  deriving Repr, DecidableEq

/-- The difficulty-management state of `MiningEngine`
(`include/core/mining.h`, lines 120-124, and `MiningStats`). -/
structure DifficultyState where
  currentDifficulty : Nat
  recentBlockTimes : List Nat
  difficultyChanges : Nat
  deriving Repr, DecidableEq

/-- `2^64`: modulus of the C++ `uint64_t` arithmetic. -/
def U64 : Nat := 2 ^ 64

/-- The ring-buffer average computed by
`MiningEngine::calculateNewDifficulty`: `std::accumulate` over `uint64_t`
(wrapping) followed by integer division by the sample count. -/
def ringAverage (st : DifficultyState) : Nat :=
  (st.recentBlockTimes.sum % U64) / st.recentBlockTimes.length

/-- `MiningEngine::calculateNewDifficulty` (`src/core/mining.cpp`,
lines 312-335).  The `double` thresholds `0.8` and `1.2` are modelled as
the exact rationals `8/10` and `12/10`; the `uint64_t` `+1`/`-1` wrap at
`2^64`. -/
def calculateNewDifficulty (cfg : MiningConfig) (st : DifficultyState) :
    Nat :=
  if st.recentBlockTimes.length < 2 then st.currentDifficulty
  else if (ringAverage st : ℚ) < (cfg.targetBlockTime : ℚ) * (8 / 10) then
    min ((st.currentDifficulty + 1) % U64) cfg.maxDifficulty
  else if (cfg.targetBlockTime : ℚ) * (12 / 10) < (ringAverage st : ℚ) then
    max ((st.currentDifficulty + (U64 - 1)) % U64) cfg.minDifficulty
  else st.currentDifficulty

/-- `MiningEngine::adjustDifficulty` (`src/core/mining.cpp`,
lines 337-348): adopt the new value and bump `stats.difficultyChanges`
only on an actual change. -/
def adjustDifficulty (cfg : MiningConfig) (st : DifficultyState) :
    DifficultyState :=
  let newDifficulty := calculateNewDifficulty cfg st
  if newDifficulty ≠ st.currentDifficulty then
    { st with currentDifficulty := newDifficulty,
              difficultyChanges := st.difficultyChanges + 1 }
  else st

theorem adjustDifficulty_currentDifficulty (cfg : MiningConfig)
    (st : DifficultyState) :
    (adjustDifficulty cfg st).currentDifficulty =
      calculateNewDifficulty cfg st := by
  unfold adjustDifficulty
  by_cases h : calculateNewDifficulty cfg st ≠ st.currentDifficulty
  · rw [if_pos h]
  · rw [if_neg h]
    push_neg at h
    exact h.symm

/-- C6 (amended): whenever the ring buffer holds at least two samples (with
fewer the code leaves the difficulty untouched), the configured bounds
satisfy `1 ≤ min ≤ D ≤ max` and `max + 1 < 2^64` (so the unsigned `±1`
cannot wrap), `adjustDifficulty` moves the difficulty to
`min (D+1) max` when the average is below `0.8·target`, to `max (D-1) min`
when it is above `1.2·target`, leaves it unchanged otherwise, increments
`difficultyChanges` exactly when the value changes, and keeps the result
inside `[min, max]`. -/
theorem c6_adjustDifficulty (cfg : MiningConfig) (st : DifficultyState)
    (hlen : 2 ≤ st.recentBlockTimes.length)
    (hmin1 : 1 ≤ cfg.minDifficulty)
    (hlo : cfg.minDifficulty ≤ st.currentDifficulty)
    (hhi : st.currentDifficulty ≤ cfg.maxDifficulty)
    (hmax : cfg.maxDifficulty + 1 < U64) :
    ((ringAverage st : ℚ) < (cfg.targetBlockTime : ℚ) * (8 / 10) →
      (adjustDifficulty cfg st).currentDifficulty =
        min (st.currentDifficulty + 1) cfg.maxDifficulty) ∧
    ((cfg.targetBlockTime : ℚ) * (12 / 10) < (ringAverage st : ℚ) →
      (adjustDifficulty cfg st).currentDifficulty =
        max (st.currentDifficulty - 1) cfg.minDifficulty) ∧
    (¬ (ringAverage st : ℚ) < (cfg.targetBlockTime : ℚ) * (8 / 10) →
      ¬ (cfg.targetBlockTime : ℚ) * (12 / 10) < (ringAverage st : ℚ) →
      adjustDifficulty cfg st = st) ∧
    ((adjustDifficulty cfg st).difficultyChanges =
      if (adjustDifficulty cfg st).currentDifficulty = st.currentDifficulty
      then st.difficultyChanges else st.difficultyChanges + 1) ∧
    (cfg.minDifficulty ≤ (adjustDifficulty cfg st).currentDifficulty ∧
      (adjustDifficulty cfg st).currentDifficulty ≤ cfg.maxDifficulty) := by
  have hU : U64 = 18446744073709551616 := by norm_num [U64]
  have hD : st.currentDifficulty < U64 := by omega
  have hinc : (st.currentDifficulty + 1) % U64 = st.currentDifficulty + 1 :=
    Nat.mod_eq_of_lt (by omega)
  have hdec : (st.currentDifficulty + (U64 - 1)) % U64 =
      st.currentDifficulty - 1 := by
    have h1 : 1 ≤ st.currentDifficulty := le_trans hmin1 hlo
    rw [hU]
    rw [hU] at hD
    omega
  have hnotlt : ¬ st.recentBlockTimes.length < 2 := not_lt.mpr hlen
  have hminmax : cfg.minDifficulty ≤ cfg.maxDifficulty := le_trans hlo hhi
  have hcnt : ∀ x : Nat,
      (adjustDifficulty cfg st).difficultyChanges =
        if (adjustDifficulty cfg st).currentDifficulty =
          st.currentDifficulty
        then st.difficultyChanges else st.difficultyChanges + 1 := by
    intro _
    unfold adjustDifficulty
    by_cases h : calculateNewDifficulty cfg st ≠ st.currentDifficulty
    · rw [if_pos h]
      simp only
      rw [if_neg h]
    · rw [if_neg h]
      push_neg at h
      rw [if_pos rfl]
  by_cases hfast : (ringAverage st : ℚ) < (cfg.targetBlockTime : ℚ) * (8 / 10)
  · have hcalc : calculateNewDifficulty cfg st =
        min (st.currentDifficulty + 1) cfg.maxDifficulty := by
      unfold calculateNewDifficulty
      rw [if_neg hnotlt, if_pos hfast, hinc]
    refine ⟨fun _ => ?_, fun hslow => ?_, fun hnf _ => absurd hfast hnf,
      hcnt 0, ?_, ?_⟩
    · rw [adjustDifficulty_currentDifficulty, hcalc]
    · exfalso
      have ht : (0 : ℚ) ≤ (cfg.targetBlockTime : ℚ) := Nat.cast_nonneg _
      linarith
    · rw [adjustDifficulty_currentDifficulty, hcalc]
      exact le_min (by omega) hminmax
    · rw [adjustDifficulty_currentDifficulty, hcalc]
      exact min_le_right _ _
  · by_cases hslow : (cfg.targetBlockTime : ℚ) * (12 / 10) < (ringAverage st : ℚ)
    · have hcalc : calculateNewDifficulty cfg st =
          max (st.currentDifficulty - 1) cfg.minDifficulty := by
        unfold calculateNewDifficulty
        rw [if_neg hnotlt, if_neg hfast, if_pos hslow, hdec]
      refine ⟨fun hf => absurd hf hfast, fun _ => ?_,
        fun _ hns => absurd hslow hns, hcnt 0, ?_, ?_⟩
      · rw [adjustDifficulty_currentDifficulty, hcalc]
      · rw [adjustDifficulty_currentDifficulty, hcalc]
        exact le_max_right _ _
      · rw [adjustDifficulty_currentDifficulty, hcalc]
        exact max_le (by omega) hminmax
    · have hcalc : calculateNewDifficulty cfg st = st.currentDifficulty := by
        unfold calculateNewDifficulty
        rw [if_neg hnotlt, if_neg hfast, if_neg hslow]
      have hst : adjustDifficulty cfg st = st := by
        unfold adjustDifficulty
        simp only [hcalc]
        rw [if_neg (by exact fun h => h rfl)]
      refine ⟨fun hf => absurd hf hfast, fun hs => absurd hs hslow,
        fun _ _ => hst, hcnt 0, ?_, ?_⟩
      · rw [hst]
        exact hlo
      · rw [hst]
        exact hhi

/-- Config for the C6 counterexample: the `MiningConfig` defaults. -/
def c6Cfg : MiningConfig := {}

/-- A state whose ring buffer holds a single 1-second sample. -/
def c6St : DifficultyState :=
  { currentDifficulty := 4, recentBlockTimes := [1],
    difficultyChanges := 0 }

/-- C6 counterexample: with one sample of 1 s the ring-buffer average (1)
is far below `0.8 · 600`, so the claim demands difficulty
`min (4+1) 8 = 5`; but `calculateNewDifficulty` returns early whenever
fewer than two samples are buffered, so the difficulty stays 4 and no
counter is bumped. -/
theorem c6_claim_false :
    ((ringAverage c6St : ℚ) < (c6Cfg.targetBlockTime : ℚ) * (8 / 10)) ∧
    adjustDifficulty c6Cfg c6St = c6St ∧
    (adjustDifficulty c6Cfg c6St).currentDifficulty ≠
      min (c6St.currentDifficulty + 1) c6Cfg.maxDifficulty := by
  have havg : ringAverage c6St = 1 := by decide
  have hcalc : calculateNewDifficulty c6Cfg c6St = 4 := by
    unfold calculateNewDifficulty
    rw [if_pos (by decide)]
    decide
  have hst : adjustDifficulty c6Cfg c6St = c6St := by
    unfold adjustDifficulty
    rw [hcalc]
    rw [if_neg (by decide)]
  refine ⟨?_, hst, ?_⟩
  · rw [havg]
    norm_num [c6Cfg]
  · rw [hst]
    decide

/-- A state with two fast samples, inside the default bounds. -/
def c6St2 : DifficultyState :=
  { currentDifficulty := 4, recentBlockTimes := [100, 100],
    difficultyChanges := 0 }

/-- C6 witness: the amended theorem at the concrete state `c6St2` — the
average 100 s is below `0.8 · 600`, so the difficulty rises to
`min 5 8 = 5`. -/
theorem c6_adjustDifficulty_witness :
    (adjustDifficulty c6Cfg c6St2).currentDifficulty = 5 := by
  have h := (c6_adjustDifficulty c6Cfg c6St2 (by decide) (by decide)
    (by decide) (by decide) (by norm_num [c6Cfg, U64])).1
  have havg : ringAverage c6St2 = 100 := by decide
  rw [h (by rw [havg]; norm_num [c6Cfg])]
  decide

end Nilotic

namespace Nilotic

/-- `std::sort` with a strict-weak-order comparator `cmp`, modelled as a
stable comparison sort: in the output an element `a` precedes `b` only
when `¬ cmp b a`, which is exactly the ordering guarantee `std::sort`
gives (ties are left in a stable order, one allowed behaviour). -/
def stdSort (cmp : Transaction → Transaction → Prop) [DecidableRel cmp]
    (l : List Transaction) : List Transaction :=
  letI : DecidableRel (fun a b : Transaction => ¬ cmp b a) :=
    fun _ _ => inferInstance
  List.insertionSort (fun a b => ¬ cmp b a) l

/-- The candidate-selection loop of
`MiningEngine::selectTransactionsForBlock` (`src/core/mining.cpp`,
lines 513-526): stop at the first transaction that would push the block
past `maxBlockSize` (sizes measured, as in the source, by the length of
the transaction's content-hash) or once `maxTransactionsPerBlock` is
reached. -/
def selectLoop (cfg : MiningConfig) (sha : String → String)
    (fmt : ℚ → String) : List Transaction → Nat → Nat → List Transaction
  | [], _, _ => []
  | t :: rest, blockSize, count =>
    if cfg.maxBlockSize < blockSize + (t.calculateHash sha fmt).length then
      []
    else if cfg.maxTransactionsPerBlock ≤ count then []
    else t :: selectLoop cfg sha fmt rest
      (blockSize + (t.calculateHash sha fmt).length) (count + 1)

/-- `MiningEngine::selectTransactionsForBlock` (`src/core/mining.cpp`,
lines 499-529): sorts the pending pool by **amount**, higher first (the
source comment admits "In a real implementation, you'd calculate actual
fees"), then truncates via `selectLoop`. -/
def selectTransactionsForBlock (cfg : MiningConfig) (sha : String → String)
    (fmt : ℚ → String) (pool : List Transaction) : List Transaction :=
  selectLoop cfg sha fmt
    (stdSort (fun a b => a.amount > b.amount) pool) 0 0

/-- Modelled from the spec: `Transaction::getFee` is called by
`TransactionPrioritizer::sortByFee` (IMPROVED_TRANSACTION_SPEED.cpp) but
is declared nowhere under src/.  The spec's data model gives a transaction
an "optional fee (defaults to base_fee + amount·rate)", so the accessor is
modelled as an arbitrary function `fee` of the transaction; `defaultFee`
is the spec's default, matching
`TransactionPrioritizer::calculateDynamicFee` (0.001 + 0.0001·amount). -/
def defaultFee (t : Transaction) : ℚ :=
  1 / 1000 + t.amount * (1 / 10000)

/-- `TransactionPrioritizer::sortByFee`
(`IMPROVED_TRANSACTION_SPEED.cpp`, lines 76-90): higher fees first, ties
by timestamp. -/
def sortByFee (fee : Transaction → ℚ) (l : List Transaction) :
    List Transaction :=
  stdSort (fun a b =>
    if fee a ≠ fee b then fee a > fee b else a.timestamp < b.timestamp) l

theorem selectLoop_sublist (cfg : MiningConfig) (sha : String → String)
    (fmt : ℚ → String) :
    ∀ (l : List Transaction) (bs cnt : Nat),
      List.Sublist (selectLoop cfg sha fmt l bs cnt) l := by
  intro l
  induction l with
  | nil =>
      intro bs cnt
      unfold selectLoop
      exact List.Sublist.refl _
  | cons t rest ih =>
      intro bs cnt
      unfold selectLoop
      split_ifs
      · exact List.nil_sublist _
      · exact List.nil_sublist _
      · exact List.Sublist.cons₂ t (ih _ _)

theorem selectLoop_length (cfg : MiningConfig) (sha : String → String)
    (fmt : ℚ → String) :
    ∀ (l : List Transaction) (bs cnt : Nat),
      (selectLoop cfg sha fmt l bs cnt).length ≤
        cfg.maxTransactionsPerBlock - cnt := by
  intro l
  induction l with
  | nil =>
      intro bs cnt
      unfold selectLoop
      simp
  | cons t rest ih =>
      intro bs cnt
      unfold selectLoop
      split_ifs with h1 h2
      · simp
      · simp
      · have := ih (bs + (t.calculateHash sha fmt).length) (cnt + 1)
        simp only [List.length_cons]
        omega

theorem selectLoop_size (cfg : MiningConfig) (sha : String → String)
    (fmt : ℚ → String) :
    ∀ (l : List Transaction) (bs cnt : Nat),
      bs + ((selectLoop cfg sha fmt l bs cnt).map
        (fun t => (t.calculateHash sha fmt).length)).sum ≤
        max cfg.maxBlockSize bs := by
  intro l
  induction l with
  | nil =>
      intro bs cnt
      unfold selectLoop
      simp
  | cons t rest ih =>
      intro bs cnt
      unfold selectLoop
      split_ifs with h1 h2
      · simp
      · simp
      · have := ih (bs + (t.calculateHash sha fmt).length) (cnt + 1)
        simp only [List.map_cons, List.sum_cons]
        push_neg at h1
        omega

end Nilotic

namespace Nilotic

theorem sorted_stdSort_amount (l : List Transaction) :
    (stdSort (fun a b => a.amount > b.amount) l).Sorted
      (fun a b => b.amount ≤ a.amount) := by
  unfold stdSort
  haveI : IsTrans Transaction
      (fun a b => ¬ (fun x y : Transaction => x.amount > y.amount) b a) := by
    refine ⟨fun a b c hab hbc => ?_⟩
    simp only [gt_iff_lt, not_lt] at *
    exact le_trans hbc hab
  haveI : IsTotal Transaction
      (fun a b => ¬ (fun x y : Transaction => x.amount > y.amount) b a) := by
    refine ⟨fun a b => ?_⟩
    simp only [gt_iff_lt, not_lt]
    exact le_total b.amount a.amount
  refine (List.sorted_insertionSort _ l).imp ?_
  intro a b h
  simp only [gt_iff_lt, not_lt] at h
  exact h

theorem defaultFee_mono {a b : Transaction} (h : b.amount ≤ a.amount) :
    defaultFee b ≤ defaultFee a := by
  unfold defaultFee
  have := mul_le_mul_of_nonneg_right h (by norm_num : (0:ℚ) ≤ 1 / 10000)
  linarith

theorem sorted_sortByFee (fee : Transaction → ℚ) (l : List Transaction) :
    (sortByFee fee l).Sorted (fun a b =>
      fee b ≤ fee a ∧ (fee a = fee b → a.timestamp ≤ b.timestamp)) := by
  unfold sortByFee stdSort
  have key : ∀ a b : Transaction,
      (¬ (if fee b ≠ fee a then fee b > fee a
          else b.timestamp < a.timestamp)) ↔
        (fee b ≤ fee a ∧ (fee a = fee b → a.timestamp ≤ b.timestamp)) := by
    intro a b
    by_cases hf : fee b = fee a
    · rw [if_neg (by simpa using hf)]
      constructor
      · intro h
        exact ⟨le_of_eq hf, fun _ => not_lt.mp h⟩
      · rintro ⟨-, h2⟩
        exact not_lt.mpr (h2 hf.symm)
    · rw [if_pos hf]
      constructor
      · intro h
        exact ⟨not_lt.mp h, fun he => absurd he.symm hf⟩
      · rintro ⟨h1, -⟩
        exact not_lt.mpr h1
  haveI : IsTrans Transaction
      (fun a b => ¬ (fun x y : Transaction =>
        if fee x ≠ fee y then fee x > fee y
        else x.timestamp < y.timestamp) b a) := by
    refine ⟨fun a b c hab hbc => ?_⟩
    have hab' := (key a b).mp hab
    have hbc' := (key b c).mp hbc
    refine (key a c).mpr ?_
    obtain ⟨f1, t1⟩ := hab'
    obtain ⟨f2, t2⟩ := hbc'
    refine ⟨le_trans f2 f1, fun hac => ?_⟩
    have hfb : fee b = fee a := le_antisymm f1 (hac ▸ f2)
    have hfcb : fee b = fee c := by rw [hfb, hac]
    exact le_trans (t1 hfb.symm) (t2 hfcb)
  haveI : IsTotal Transaction
      (fun a b => ¬ (fun x y : Transaction =>
        if fee x ≠ fee y then fee x > fee y
        else x.timestamp < y.timestamp) b a) := by
    refine ⟨fun a b => ?_⟩
    refine Or.imp ((key a b).mpr) ((key b a).mpr) ?_
    rcases lt_trichotomy (fee a) (fee b) with h | h | h
    · exact Or.inr ⟨le_of_lt h, fun he => absurd he (ne_of_gt h)⟩
    · rcases le_total a.timestamp b.timestamp with ht | ht
      · exact Or.inl ⟨le_of_eq h.symm, fun _ => ht⟩
      · exact Or.inr ⟨le_of_eq h, fun _ => ht⟩
    · exact Or.inl ⟨le_of_lt h, fun he => absurd he (ne_of_gt h)⟩
  refine (List.sorted_insertionSort _ l).imp ?_
  intro a b h
  exact (key a b).mp h

/-- C4 (amended): `MiningEngine::selectTransactionsForBlock` returns a
list that is non-increasing in **amount** (hence non-increasing in the
spec's default fee, which is monotone in the amount, but not in an
explicitly set fee — see the counterexample), of length at most
`maxTransactionsPerBlock`, with total content-hash size at most
`maxBlockSize`; ties are left in the stable order, not re-ordered by
timestamp.  Separately, `TransactionPrioritizer::sortByFee` does order by
(fee descending, timestamp ascending on fee ties) — but performs no
truncation. -/
theorem c4_selection_amended (cfg : MiningConfig) (sha : String → String)
    (fmt : ℚ → String) (fee : Transaction → ℚ) (pool : List Transaction) :
    (selectTransactionsForBlock cfg sha fmt pool).Sorted
      (fun a b => b.amount ≤ a.amount) ∧
    (selectTransactionsForBlock cfg sha fmt pool).Sorted
      (fun a b => defaultFee b ≤ defaultFee a) ∧
    (selectTransactionsForBlock cfg sha fmt pool).length ≤
      cfg.maxTransactionsPerBlock ∧
    ((selectTransactionsForBlock cfg sha fmt pool).map
      (fun t => (t.calculateHash sha fmt).length)).sum ≤ cfg.maxBlockSize ∧
    (sortByFee fee pool).Sorted (fun a b =>
      fee b ≤ fee a ∧ (fee a = fee b → a.timestamp ≤ b.timestamp)) := by
  have hsorted := sorted_stdSort_amount pool
  have hsub := selectLoop_sublist cfg sha fmt
    (stdSort (fun a b => a.amount > b.amount) pool) 0 0
  have hsortedSel :
      (selectTransactionsForBlock cfg sha fmt pool).Sorted
        (fun a b => b.amount ≤ a.amount) :=
    List.Pairwise.sublist hsub hsorted
  refine ⟨hsortedSel, hsortedSel.imp (fun h => defaultFee_mono h), ?_, ?_,
    sorted_sortByFee fee pool⟩
  · have := selectLoop_length cfg sha fmt
      (stdSort (fun a b => a.amount > b.amount) pool) 0 0
    unfold selectTransactionsForBlock
    omega
  · have := selectLoop_size cfg sha fmt
      (stdSort (fun a b => a.amount > b.amount) pool) 0 0
    unfold selectTransactionsForBlock
    omega

/-- Config for the C4 counterexample: the `MiningConfig` defaults. -/
def c4Cfg : MiningConfig := {}

/-- Fee-1 transaction with the larger amount. -/
def c4TxB : Transaction :=
  { sender := "B", recipient := "P", amount := 2, timestamp := 0,
    hash := "b", signature := "s", isOffline := false,
    contractCode := "", contractState := "" }

/-- Fee-10 transaction with the smaller amount. -/
def c4TxA : Transaction :=
  { sender := "A", recipient := "P", amount := 1, timestamp := 0,
    hash := "a", signature := "s", isOffline := false,
    contractCode := "", contractState := "" }

/-- An explicitly set fee (allowed by the spec's "optional fee" field):
10 NIL on the small transaction, 1 NIL on the large one. -/
def c4fee (t : Transaction) : ℚ :=
  if t.amount ≤ 1 then 10 else 1

/-- C4 counterexample: on the pool `[c4TxA, c4TxB]` with the explicit fees
`c4fee`, `selectTransactionsForBlock` returns `[c4TxB, c4TxA]` — sorted by
amount, not by fee — whose fee sequence `[1, 10]` is strictly increasing,
refuting the claimed "sorted by fee descending / non-increasing in fee". -/
theorem c4_claim_false :
    selectTransactionsForBlock c4Cfg (fun _ => "h") (fun _ => "")
        [c4TxA, c4TxB] = [c4TxB, c4TxA] ∧
    c4fee c4TxB < c4fee c4TxA ∧
    ¬ (selectTransactionsForBlock c4Cfg (fun _ => "h") (fun _ => "")
        [c4TxA, c4TxB]).Sorted (fun a b => c4fee b ≤ c4fee a) := by
  refine ⟨by decide, by decide, ?_⟩
  intro hsorted
  rw [show selectTransactionsForBlock c4Cfg (fun _ => "h") (fun _ => "")
      [c4TxA, c4TxB] = [c4TxB, c4TxA] from by decide] at hsorted
  have := List.rel_of_sorted_cons hsorted c4TxA (by simp)
  revert this
  decide

end Nilotic

namespace Nilotic

namespace PoRCConfig

/-- PoRC configuration constants (`include/core/porc.h`, lines 19-33). -/
def MIN_BALANCE : Nat := 5

def MIN_ACTIVITY : Nat := 1

def DAILY_REWARD_POOL : Nat := 500

def BLOCKS_PER_DAY : Nat := 36000

def BONDING_CURVE_EARLY : ℚ := 3 / 2

def EARLY_ADOPTER_LIMIT : Nat := 1000

def MAX_REWARD_PER_BLOCK : ℚ := 1 / 2

def POOL_SIZE : Nat := 100

def POOL_ROTATION_BLOCKS : Nat := 10

def RESOURCE_POINT_MB : Nat := 1

def RESOURCE_POINT_TX : Nat := 10

end PoRCConfig

/-- `PoRCContribution` fields (`include/core/porc.h`, lines 63-82). -/
structure PoRCContribution where
  walletAddress : String
  taskId : String
  timestamp : Nat
  blockHeight : Nat
  bandwidthUsed : Nat
  transactionsRelayed : Nat
  uptimeSeconds : Nat
  proofHash : String
  signature : String
  deriving Repr, DecidableEq

/-- `PoRCContribution::calculateResourcePoints` (`src/core/porc.cpp`,
lines 124-129): integer arithmetic, `/` truncating. -/
def PoRCContribution.calculateResourcePoints (c : PoRCContribution) : Nat :=
  c.bandwidthUsed * PoRCConfig.RESOURCE_POINT_MB +
    c.transactionsRelayed / PoRCConfig.RESOURCE_POINT_TX

/-- `PoRCWalletStatus` fields (`include/core/porc.h`, lines 85-102). -/
structure PoRCWalletStatus where
  address : String
  isEnabled : Bool
  totalResourcePoints : Nat
  totalRewards : Nat
  lastContribution : Nat
  reputationScore : Nat
  bandwidthLimit : Nat
  isEarlyAdopter : Bool
  poolIndex : Nat
  deriving Repr, DecidableEq

/-- `PoRCStats` fields (`include/core/porc.h`, lines 123-139). -/
structure PoRCStats where
  totalWallets : Nat
  activeWallets : Nat
  totalResourcePoints : Nat
  totalRewardsDistributed : Nat
  totalBurned : Nat
  currentBlockReward : Nat
  activePools : Nat
  averageBandwidth : ℚ
  averageUptime : ℚ
  deriving Repr, DecidableEq

/-- `PoRCPool` fields (`include/core/porc.h`, lines 105-120). -/
structure PoRCPool where
  poolIndex : Nat
  walletAddresses : List String
  totalResourcePoints : Nat
  blockStart : Nat
  blockEnd : Nat
  isActive : Bool
  deriving Repr, DecidableEq

/-- The mutable state of `PoRCSystem` that the modelled operations touch
(`include/core/porc.h`, lines 148-158). -/
structure PoRCState where
  pools : List PoRCPool
  walletStatuses : List (String × PoRCWalletStatus)
  pendingContributions : List PoRCContribution
  stats : PoRCStats
  currentBlockHeight : Nat
  totalWalletsRegistered : Nat
  deriving Repr, DecidableEq

/-- `std::map::find` on the wallet-status map. -/
def wsFind? : List (String × PoRCWalletStatus) → String →
    Option PoRCWalletStatus
  | [], _ => none
  | p :: rest, k => if p.1 = k then some p.2 else wsFind? rest k

/-- In-place update of the wallet-status entry for `k`, when present
(the `if (it != walletStatuses.end())` pattern of the source). -/
def wsUpdate (m : List (String × PoRCWalletStatus)) (k : String)
    (f : PoRCWalletStatus → PoRCWalletStatus) :
    List (String × PoRCWalletStatus) :=
  match m with
  | [] => []
  | p :: rest =>
      if p.1 = k then (p.1, f p.2) :: rest else p :: wsUpdate rest k f

/-- `walletPoints[addr] += points` (`std::map` `operator[]`
default-inserts 0). -/
def bumpPoints : List (String × Nat) → String → Nat → List (String × Nat)
  | [], a, p => [(a, p)]
  | q :: rest, a, p =>
      if q.1 = a then (q.1, q.2 + p) :: rest else q :: bumpPoints rest a p

/-- The per-wallet point aggregation loop of
`PoRCSystem::distributeRewards` (`src/core/porc.cpp`, lines 681-685).
(`std::map` iterates in key order, the model in insertion order; every
proved property is order-independent, as each wallet appears once.) -/
def walletPoints (cs : List PoRCContribution) : List (String × Nat) :=
  cs.foldl (fun m c => bumpPoints m c.walletAddress
    c.calculateResourcePoints) []

/-- `totalPoints` as accumulated by the same loop. -/
def totalPoints (cs : List PoRCContribution) : Nat :=
  (cs.map PoRCContribution.calculateResourcePoints).sum

/-- `blockReward = DAILY_REWARD_POOL / BLOCKS_PER_DAY` (a `double` in the
source, an exact rational here). -/
def blockReward : ℚ :=
  (PoRCConfig.DAILY_REWARD_POOL : ℚ) / (PoRCConfig.BLOCKS_PER_DAY : ℚ)

/-- The early-adopter lookup made by `PoRCSystem::calculateReward`:
`it != walletStatuses.end() && it->second.isEarlyAdopter`. -/
def earlyLookup (m : List (String × PoRCWalletStatus)) (a : String) : Bool :=
  match wsFind? m a with
  | some w => w.isEarlyAdopter
  | none => false

/-- `PoRCSystem::calculateReward` (`src/core/porc.cpp`, lines 719-739),
reading the wallet-status map `m`. -/
def calculateReward (m : List (String × PoRCWalletStatus)) (address : String)
    (resourcePoints totalPoints : Nat) : ℚ :=
  let baseReward := blockReward
  let proportionalReward :=
    ((resourcePoints : ℚ) / (totalPoints : ℚ)) * baseReward
  let bondingMultiplier : ℚ :=
    if earlyLookup m address then PoRCConfig.BONDING_CURVE_EARLY else 1
  let finalReward := proportionalReward * bondingMultiplier
  if finalReward > PoRCConfig.MAX_REWARD_PER_BLOCK then
    PoRCConfig.MAX_REWARD_PER_BLOCK
  else finalReward

/-- `static_cast<uint64_t>(q * 1000000)`: micro-NIL conversion (the cast
truncates; all converted rewards are non-negative). -/
def toMicro (q : ℚ) : Nat :=
  (q * 1000000).floor.toNat

/-- One iteration of the crediting loop of
`PoRCSystem::distributeRewards` (`src/core/porc.cpp`, lines 694-708):
compute the reward against the current statuses and credit it if the
wallet is registered. -/
def creditOne (tp : Nat) (m : List (String × PoRCWalletStatus))
    (q : String × Nat) : List (String × PoRCWalletStatus) :=
  wsUpdate m q.1 (fun w =>
    { w with
      totalRewards := w.totalRewards + toMicro (calculateReward m q.1 q.2 tp),
      totalResourcePoints := w.totalResourcePoints + q.2 })

/-- The crediting loop of `PoRCSystem::distributeRewards` over the
per-wallet points. -/
def rewardLoop (tp : Nat) (wp : List (String × Nat))
    (m : List (String × PoRCWalletStatus)) :
    List (String × PoRCWalletStatus) :=
  wp.foldl (creditOne tp) m

/-- `PoRCSystem::distributeRewards` (`src/core/porc.cpp`, lines 670-717). -/
def distributeRewards (s : PoRCState) : PoRCState :=
  if s.pendingContributions = [] then s
  else if totalPoints s.pendingContributions = 0 then s
  else
    { s with
      walletStatuses := rewardLoop (totalPoints s.pendingContributions)
        (walletPoints s.pendingContributions) s.walletStatuses,
      pendingContributions := [],
      stats := { s.stats with
        totalRewardsDistributed :=
          s.stats.totalRewardsDistributed + toMicro blockReward,
        currentBlockReward := toMicro blockReward } }

/-- C10: `distributeRewards` returns early — leaving the wallet statuses,
the stats counters and the pending contributions untouched — when the
pending list is empty or when the total resource points are zero (possible
with zero bandwidth and fewer than `RESOURCE_POINT_TX` relayed
transactions, because the points use integer division); the division by
`total_points` is reached only when it is positive. -/
theorem c10_distributeRewards_guard (s : PoRCState)
    (h : s.pendingContributions = [] ∨
      totalPoints s.pendingContributions = 0) :
    distributeRewards s = s := by
  unfold distributeRewards
  rcases h with h | h
  · rw [if_pos h]
  · by_cases h0 : s.pendingContributions = []
    · rw [if_pos h0]
    · rw [if_neg h0, if_pos h]

/-- A contribution with zero bandwidth and 9 relayed transactions: its
resource points are `0·1 + 9/10 = 0` by integer division. -/
def c10Contrib : PoRCContribution :=
  { walletAddress := "W", taskId := "t", timestamp := 0, blockHeight := 0,
    bandwidthUsed := 0, transactionsRelayed := 9, uptimeSeconds := 0,
    proofHash := "p", signature := "s" }

/-- The wallet status enrolled in the C10 witness state. -/
def c10Wallet : PoRCWalletStatus :=
  { address := "W", isEnabled := true, totalResourcePoints := 0,
    totalRewards := 0, lastContribution := 0, reputationScore := 0,
    bandwidthLimit := 50, isEarlyAdopter := false, poolIndex := 0 }

/-- Stats block of the C10 witness state. -/
def c10Stats : PoRCStats :=
  { totalWallets := 1, activeWallets := 1, totalResourcePoints := 0,
    totalRewardsDistributed := 0, totalBurned := 0,
    currentBlockReward := 0, activePools := 0, averageBandwidth := 0,
    averageUptime := 0 }

/-- A PoRC state whose single pending contribution carries zero points. -/
def c10State : PoRCState :=
  { pools := [], walletStatuses := [("W", c10Wallet)],
    pendingContributions := [c10Contrib], stats := c10Stats,
    currentBlockHeight := 0, totalWalletsRegistered := 1 }

/-- C10 witness: the guard theorem at `c10State` — a non-empty pending
list whose total points are 0 (9 relayed transactions round down to 0
points) leaves the state untouched. -/
theorem c10_distributeRewards_guard_witness :
    distributeRewards c10State = c10State ∧
    c10State.pendingContributions ≠ [] ∧
    totalPoints c10State.pendingContributions = 0 := by
  refine ⟨c10_distributeRewards_guard c10State (Or.inr (by decide)),
    by decide, by decide⟩

end Nilotic

namespace Nilotic

theorem bumpPoints_sum (m : List (String × Nat)) (a : String) (p : Nat) :
    ((bumpPoints m a p).map (fun q => q.2)).sum =
      (m.map (fun q => q.2)).sum + p := by
  induction m with
  | nil => simp [bumpPoints]
  | cons q rest ih =>
      by_cases h : q.1 = a
      · simp [bumpPoints, h]
        omega
      · simp [bumpPoints, h, ih]
        omega

theorem walletPoints_sum (cs : List PoRCContribution) :
    ((walletPoints cs).map (fun q => q.2)).sum = totalPoints cs := by
  have aux : ∀ (cs : List PoRCContribution) (init : List (String × Nat)),
      ((cs.foldl (fun m c => bumpPoints m c.walletAddress
        c.calculateResourcePoints) init).map (fun q => q.2)).sum =
        (init.map (fun q => q.2)).sum + totalPoints cs := by
    intro cs
    induction cs with
    | nil => intro init; simp [totalPoints]
    | cons c rest ih =>
        intro init
        simp only [List.foldl_cons]
        rw [ih, bumpPoints_sum]
        simp [totalPoints]
        omega
  simpa [walletPoints] using aux cs []

theorem bumpPoints_keys (m : List (String × Nat)) (a : String) (p : Nat) :
    (bumpPoints m a p).map (fun q => q.1) =
      if a ∈ m.map (fun q => q.1) then m.map (fun q => q.1)
      else m.map (fun q => q.1) ++ [a] := by
  induction m with
  | nil => simp [bumpPoints]
  | cons q rest ih =>
      by_cases h : q.1 = a
      · simp [bumpPoints, h]
      · simp only [bumpPoints, if_neg h, List.map_cons, ih]
        by_cases ha : a ∈ rest.map (fun q => q.1)
        · rw [if_pos ha, if_pos (by simp [ha])]
        · rw [if_neg ha, if_neg (by
            simp only [List.mem_cons]
            rintro (h' | h')
            · exact h h'.symm
            · exact ha h')]
          simp

theorem bumpPoints_keys_nodup (m : List (String × Nat)) (a : String)
    (p : Nat) (h : (m.map (fun q => q.1)).Nodup) :
    ((bumpPoints m a p).map (fun q => q.1)).Nodup := by
  rw [bumpPoints_keys]
  by_cases ha : a ∈ m.map (fun q => q.1)
  · rwa [if_pos ha]
  · rw [if_neg ha]
    simp [List.nodup_append, h, ha]

theorem walletPoints_keys_nodup (cs : List PoRCContribution) :
    ((walletPoints cs).map (fun q => q.1)).Nodup := by
  have aux : ∀ (cs : List PoRCContribution) (init : List (String × Nat)),
      ((init.map (fun q => q.1)).Nodup) →
      (((cs.foldl (fun m c => bumpPoints m c.walletAddress
        c.calculateResourcePoints) init).map (fun q => q.1)).Nodup) := by
    intro cs
    induction cs with
    | nil => intro init h; simpa using h
    | cons c rest ih =>
        intro init h
        simp only [List.foldl_cons]
        exact ih _ (bumpPoints_keys_nodup _ _ _ h)
  exact aux cs [] (by simp)

theorem wsFind?_wsUpdate (m : List (String × PoRCWalletStatus)) (k : String)
    (f : PoRCWalletStatus → PoRCWalletStatus) (a : String) :
    wsFind? (wsUpdate m k f) a =
      if k = a then (wsFind? m k).map f else wsFind? m a := by
  induction m with
  | nil => by_cases h : k = a <;> simp [wsUpdate, wsFind?, h]
  | cons p rest ih =>
      by_cases hp : p.1 = k
      · by_cases h : k = a
        · simp [wsUpdate, wsFind?, hp, h, hp.trans h]
        · have hpa : ¬p.1 = a := fun hh => h (hp.symm.trans hh)
          simp [wsUpdate, wsFind?, hp, h, hpa]
      · by_cases hpa : p.1 = a
        · have hk : ¬k = a := fun hh => hp (hpa.trans hh.symm)
          have hak : ¬a = k := fun hh => hp (hpa.trans hh)
          simp [wsUpdate, wsFind?, hp, hpa, hk, hak]
        · simp [wsUpdate, wsFind?, hp, hpa, ih]

theorem earlyLookup_wsUpdate (m : List (String × PoRCWalletStatus))
    (k : String) (f : PoRCWalletStatus → PoRCWalletStatus) (a : String)
    (hf : ∀ w, (f w).isEarlyAdopter = w.isEarlyAdopter) :
    earlyLookup (wsUpdate m k f) a = earlyLookup m a := by
  unfold earlyLookup
  rw [wsFind?_wsUpdate]
  by_cases h : k = a
  · rw [if_pos h, h]
    cases hw : wsFind? m a with
    | none => rfl
    | some w => simp [hf w]
  · rw [if_neg h]

theorem calculateReward_congr (m m' : List (String × PoRCWalletStatus))
    (a : String) (p tp : Nat) (h : earlyLookup m a = earlyLookup m' a) :
    calculateReward m a p tp = calculateReward m' a p tp := by
  unfold calculateReward
  rw [h]

theorem earlyLookup_creditOne (tp : Nat)
    (m : List (String × PoRCWalletStatus)) (q : String × Nat) (a : String) :
    earlyLookup (creditOne tp m q) a = earlyLookup m a :=
  earlyLookup_wsUpdate m q.1 _ a (fun _ => rfl)

theorem wsFind?_creditOne_ne (tp : Nat)
    (m : List (String × PoRCWalletStatus)) (q : String × Nat) (a : String)
    (h : q.1 ≠ a) :
    wsFind? (creditOne tp m q) a = wsFind? m a := by
  unfold creditOne
  rw [wsFind?_wsUpdate, if_neg h]

theorem rewardLoop_not_mem (tp : Nat) :
    ∀ (wp : List (String × Nat)) (m : List (String × PoRCWalletStatus))
      (a : String), a ∉ wp.map (fun q => q.1) →
      wsFind? (rewardLoop tp wp m) a = wsFind? m a := by
  intro wp
  induction wp with
  | nil => intro m a _; rfl
  | cons q rest ih =>
      intro m a ha
      simp only [List.map_cons, List.mem_cons] at ha
      push_neg at ha
      unfold rewardLoop at *
      simp only [List.foldl_cons]
      rw [ih _ a ha.2, wsFind?_creditOne_ne tp m q a (fun h => ha.1 h.symm)]

theorem rewardLoop_credit (tp : Nat) :
    ∀ (wp : List (String × Nat)) (m m0 : List (String × PoRCWalletStatus)),
      ((wp.map (fun q => q.1)).Nodup) →
      (∀ x, earlyLookup m x = earlyLookup m0 x) →
      ∀ q ∈ wp,
        wsFind? (rewardLoop tp wp m) q.1 =
          (wsFind? m q.1).map (fun w =>
            { w with
              totalRewards := w.totalRewards +
                toMicro (calculateReward m0 q.1 q.2 tp),
              totalResourcePoints := w.totalResourcePoints + q.2 }) := by
  intro wp
  induction wp with
  | nil => intro m m0 _ _ q hq; cases hq
  | cons q0 rest ih =>
      intro m m0 hnd hE q hq
      have hnd' := hnd
      simp only [List.map_cons, List.nodup_cons] at hnd'
      unfold rewardLoop
      simp only [List.foldl_cons]
      rcases List.mem_cons.mp hq with rfl | hqrest
      · have hnot : q.1 ∉ rest.map (fun r => r.1) := hnd'.1
        have h1 : wsFind? (rewardLoop tp rest (creditOne tp m q)) q.1 =
            wsFind? (creditOne tp m q) q.1 :=
          rewardLoop_not_mem tp rest _ q.1 hnot
        unfold rewardLoop at h1
        rw [h1]
        unfold creditOne
        rw [wsFind?_wsUpdate, if_pos rfl,
          calculateReward_congr m m0 q.1 q.2 tp (hE q.1)]
      · have hne : q0.1 ≠ q.1 := by
          intro h
          exact hnd'.1 (h ▸ List.mem_map.mpr ⟨q, hqrest, rfl⟩)
        have := ih (creditOne tp m q0) m0 hnd'.2
          (fun x => (earlyLookup_creditOne tp m q0 x).trans (hE x)) q hqrest
        unfold rewardLoop at this
        rw [this, wsFind?_creditOne_ne tp m q0 q.1 hne]

end Nilotic

namespace Nilotic

theorem calculateReward_eq_min (m : List (String × PoRCWalletStatus))
    (a : String) (p tp : Nat) :
    calculateReward m a p tp =
      min (((p : ℚ) / (tp : ℚ)) * blockReward *
        (if earlyLookup m a then PoRCConfig.BONDING_CURVE_EARLY else 1))
        PoRCConfig.MAX_REWARD_PER_BLOCK := by
  unfold calculateReward
  by_cases h : ((p : ℚ) / (tp : ℚ)) * blockReward *
      (if earlyLookup m a then PoRCConfig.BONDING_CURVE_EARLY else 1) >
        PoRCConfig.MAX_REWARD_PER_BLOCK
  · rw [if_pos h]
    exact (min_eq_right (le_of_lt h)).symm
  · rw [if_neg h]
    exact (min_eq_left (not_lt.mp h)).symm

theorem blockReward_nonneg : 0 ≤ blockReward := by
  norm_num [blockReward, PoRCConfig.DAILY_REWARD_POOL,
    PoRCConfig.BLOCKS_PER_DAY]

theorem calculateReward_le (m : List (String × PoRCWalletStatus))
    (a : String) (p tp : Nat) :
    calculateReward m a p tp ≤
      ((p : ℚ) / (tp : ℚ)) * blockReward * PoRCConfig.BONDING_CURVE_EARLY := by
  rw [calculateReward_eq_min]
  refine le_trans (min_le_left _ _) ?_
  have h0 : 0 ≤ ((p : ℚ) / (tp : ℚ)) * blockReward :=
    mul_nonneg (div_nonneg (Nat.cast_nonneg _) (Nat.cast_nonneg _))
      blockReward_nonneg
  by_cases h : earlyLookup m a
  · rw [if_pos h]
  · rw [if_neg h]
    unfold PoRCConfig.BONDING_CURVE_EARLY
    nlinarith

theorem sum_map_cast_mul (l : List (String × Nat)) (c : ℚ) :
    (l.map (fun q => (q.2 : ℚ) * c)).sum =
      (((l.map (fun q => q.2)).sum : Nat) : ℚ) * c := by
  induction l with
  | nil => simp
  | cons q rest ih =>
      simp only [List.map_cons, List.sum_cons, ih]
      push_cast
      ring

theorem c2_sum_bound (s : PoRCState)
    (htp : totalPoints s.pendingContributions ≠ 0) :
    ((walletPoints s.pendingContributions).map (fun q =>
      calculateReward s.walletStatuses q.1 q.2
        (totalPoints s.pendingContributions))).sum ≤
      PoRCConfig.BONDING_CURVE_EARLY * blockReward := by
  have htpQ : ((totalPoints s.pendingContributions : Nat) : ℚ) ≠ 0 :=
    Nat.cast_ne_zero.mpr htp
  have hstep : ∀ q ∈ walletPoints s.pendingContributions,
      calculateReward s.walletStatuses q.1 q.2
        (totalPoints s.pendingContributions) ≤
        (q.2 : ℚ) * (blockReward * PoRCConfig.BONDING_CURVE_EARLY /
          ((totalPoints s.pendingContributions : Nat) : ℚ)) := by
    intro q _
    refine le_trans (calculateReward_le _ _ _ _) (le_of_eq ?_)
    field_simp
    ring
  have h1 := List.sum_le_sum hstep
  refine le_trans h1 ?_
  rw [sum_map_cast_mul, walletPoints_sum]
  rw [mul_comm, div_mul_cancel₀ _ htpQ]
  ring_nf
  exact le_refl _

/-- C2 (amended): on a reward tick with positive total points, every
wallet `w` with points `p` is computed the reward
`min ((p/total)·block_reward·multiplier, MAX_REWARD_PER_BLOCK)` with
multiplier `BONDING_CURVE_EARLY` exactly for early adopters, and, when
registered, is credited that reward (in truncated micro-NIL) and the
points by `distributeRewards`; the rewards issued in the tick sum to at
most `BONDING_CURVE_EARLY · block_reward` — but not to `block_reward`,
which the counterexample refutes. -/
theorem c2_rewards_amended (s : PoRCState)
    (hne : s.pendingContributions ≠ [])
    (htp : totalPoints s.pendingContributions ≠ 0) :
    (∀ q ∈ walletPoints s.pendingContributions,
      calculateReward s.walletStatuses q.1 q.2
        (totalPoints s.pendingContributions) =
        min (((q.2 : ℚ) / (totalPoints s.pendingContributions : ℚ)) *
          blockReward *
          (if earlyLookup s.walletStatuses q.1 then
            PoRCConfig.BONDING_CURVE_EARLY else 1))
          PoRCConfig.MAX_REWARD_PER_BLOCK) ∧
    (((walletPoints s.pendingContributions).map (fun q =>
      calculateReward s.walletStatuses q.1 q.2
        (totalPoints s.pendingContributions))).sum ≤
      PoRCConfig.BONDING_CURVE_EARLY * blockReward) ∧
    (∀ q ∈ walletPoints s.pendingContributions,
      wsFind? (distributeRewards s).walletStatuses q.1 =
        (wsFind? s.walletStatuses q.1).map (fun w =>
          { w with
            totalRewards := w.totalRewards + toMicro
              (calculateReward s.walletStatuses q.1 q.2
                (totalPoints s.pendingContributions)),
            totalResourcePoints := w.totalResourcePoints + q.2 })) := by
  refine ⟨fun q _ => calculateReward_eq_min _ _ _ _, c2_sum_bound s htp, ?_⟩
  intro q hq
  have hrun : (distributeRewards s).walletStatuses =
      rewardLoop (totalPoints s.pendingContributions)
        (walletPoints s.pendingContributions) s.walletStatuses := by
    unfold distributeRewards
    rw [if_neg hne, if_neg htp]
  rw [hrun]
  exact rewardLoop_credit (totalPoints s.pendingContributions)
    (walletPoints s.pendingContributions) s.walletStatuses s.walletStatuses
    (walletPoints_keys_nodup _) (fun _ => rfl) q hq

/-- The single early-adopter wallet of the C2 counterexample. -/
def c2Wallet : PoRCWalletStatus :=
  { address := "W", isEnabled := true, totalResourcePoints := 0,
    totalRewards := 0, lastContribution := 0, reputationScore := 0,
    bandwidthLimit := 50, isEarlyAdopter := true, poolIndex := 0 }

/-- A contribution of 10 MB relayed by wallet W. -/
def c2Contrib : PoRCContribution :=
  { walletAddress := "W", taskId := "t", timestamp := 0, blockHeight := 0,
    bandwidthUsed := 10, transactionsRelayed := 0, uptimeSeconds := 0,
    proofHash := "p", signature := "s" }

/-- Stats block of the C2 counterexample state. -/
def c2Stats : PoRCStats :=
  { totalWallets := 1, activeWallets := 1, totalResourcePoints := 0,
    totalRewardsDistributed := 0, totalBurned := 0,
    currentBlockReward := 0, activePools := 0, averageBandwidth := 0,
    averageUptime := 0 }

/-- A PoRC state with one early-adopter wallet holding all the points. -/
def c2State : PoRCState :=
  { pools := [], walletStatuses := [("W", c2Wallet)],
    pendingContributions := [c2Contrib], stats := c2Stats,
    currentBlockHeight := 0, totalWalletsRegistered := 1 }

/-- C2 counterexample: at `c2State` the tick runs (non-empty pending, 10
total points) and the single early adopter is computed
`min (1 · block_reward · 1.5, 0.5) = block_reward · 1.5`, so the rewards
issued in the tick sum to `1/48 > block_reward = 1/72`: the claimed
invariant "sum ≤ block_reward" is false. -/
theorem c2_claim_false :
    c2State.pendingContributions ≠ [] ∧
    totalPoints c2State.pendingContributions ≠ 0 ∧
    ((walletPoints c2State.pendingContributions).map (fun q =>
      calculateReward c2State.walletStatuses q.1 q.2
        (totalPoints c2State.pendingContributions))).sum > blockReward := by
  refine ⟨by decide, by decide, ?_⟩
  have h1 : walletPoints c2State.pendingContributions = [("W", 10)] := by
    decide
  have h2 : totalPoints c2State.pendingContributions = 10 := by decide
  have hE : earlyLookup c2State.walletStatuses "W" = true := by decide
  rw [h1, h2]
  simp only [List.map_cons, List.map_nil, List.sum_cons, List.sum_nil]
  rw [calculateReward_eq_min, hE]
  norm_num [blockReward, PoRCConfig.DAILY_REWARD_POOL,
    PoRCConfig.BLOCKS_PER_DAY, PoRCConfig.BONDING_CURVE_EARLY,
    PoRCConfig.MAX_REWARD_PER_BLOCK, min_def]

/-- C2 witness: the amended theorem applied at `c2State`: the issued
rewards of that tick sum to at most `1.5 · block_reward`. -/
theorem c2_rewards_amended_witness :
    ((walletPoints c2State.pendingContributions).map (fun q =>
      calculateReward c2State.walletStatuses q.1 q.2
        (totalPoints c2State.pendingContributions))).sum ≤
      PoRCConfig.BONDING_CURVE_EARLY * blockReward :=
  (c2_rewards_amended c2State (by decide) (by decide)).2.1

end Nilotic

namespace Nilotic

/-- `PoRCPool::addWallet` (`src/core/porc.cpp`, lines 161-165): append
unless already present. -/
def PoRCPool.addWallet (p : PoRCPool) (address : String) : PoRCPool :=
  if address ∈ p.walletAddresses then p
  else { p with walletAddresses := p.walletAddresses ++ [address] }

/-- The fresh pool the `rotatePools` loop constructs for a chunk starting
at pool index `idx`: `block_start = current height`,
`block_end = height + POOL_ROTATION_BLOCKS`, `is_active = true`. -/
def basePool (height idx : Nat) : PoRCPool :=
  { poolIndex := idx, walletAddresses := [], totalResourcePoints := 0,
    blockStart := height,
    blockEnd := height + PoRCConfig.POOL_ROTATION_BLOCKS,
    isActive := true }

/-- The pool-building loop of `PoRCSystem::rotatePools`
(`src/core/porc.cpp`, lines 921-935): chunk the enabled wallets into
pools of `POOL_SIZE`, each recording the current height and rotation
window and `is_active = true`; `idx` is `pools.size()` at push time. -/
def buildPools (height : Nat) : Nat → List String → List PoRCPool
  | _, [] => []
  | idx, w :: rest =>
      (((w :: rest).take PoRCConfig.POOL_SIZE).foldl PoRCPool.addWallet
          (basePool height idx)) ::
        buildPools height (idx + 1) ((w :: rest).drop PoRCConfig.POOL_SIZE)
  termination_by _ ws => ws.length
  decreasing_by
    simp only [List.length_drop, List.length_cons, PoRCConfig.POOL_SIZE]
    omega

/-- `PoRCSystem::rotatePools` (`src/core/porc.cpp`, lines 905-938):
discard the pool list and rebuild it from the currently-enabled wallets. -/
def rotatePools (s : PoRCState) : PoRCState :=
  { s with
      pools := buildPools s.currentBlockHeight 0
        ((s.walletStatuses.filter (fun p => p.2.isEnabled)).map
          (fun p => p.1)) }

theorem addWallet_mem (p : PoRCPool) (a x : String) :
    x ∈ (p.addWallet a).walletAddresses ↔
      x ∈ p.walletAddresses ∨ x = a := by
  unfold PoRCPool.addWallet
  split_ifs with h
  · constructor
    · exact Or.inl
    · rintro (hx | rfl)
      · exact hx
      · exact h
  · simp [List.mem_append]

theorem foldl_addWallet_mem (l : List String) (p : PoRCPool) (x : String) :
    x ∈ (l.foldl PoRCPool.addWallet p).walletAddresses ↔
      x ∈ p.walletAddresses ∨ x ∈ l := by
  induction l generalizing p with
  | nil => simp
  | cons a rest ih =>
      simp only [List.foldl_cons, ih, addWallet_mem, List.mem_cons]
      tauto

theorem addWallet_fields (p : PoRCPool) (a : String) :
    (p.addWallet a).poolIndex = p.poolIndex ∧
    (p.addWallet a).blockStart = p.blockStart ∧
    (p.addWallet a).blockEnd = p.blockEnd ∧
    (p.addWallet a).isActive = p.isActive := by
  unfold PoRCPool.addWallet
  split_ifs <;> exact ⟨rfl, rfl, rfl, rfl⟩

theorem foldl_addWallet_fields (l : List String) (p : PoRCPool) :
    (l.foldl PoRCPool.addWallet p).poolIndex = p.poolIndex ∧
    (l.foldl PoRCPool.addWallet p).blockStart = p.blockStart ∧
    (l.foldl PoRCPool.addWallet p).blockEnd = p.blockEnd ∧
    (l.foldl PoRCPool.addWallet p).isActive = p.isActive := by
  induction l generalizing p with
  | nil => exact ⟨rfl, rfl, rfl, rfl⟩
  | cons a rest ih =>
      simp only [List.foldl_cons]
      obtain ⟨i1, s1, e1, a1⟩ := addWallet_fields p a
      obtain ⟨i2, s2, e2, a2⟩ := ih (p.addWallet a)
      exact ⟨i2.trans i1, s2.trans s1, e2.trans e1, a2.trans a1⟩

theorem foldl_addWallet_length (l : List String) (p : PoRCPool) :
    (l.foldl PoRCPool.addWallet p).walletAddresses.length ≤
      p.walletAddresses.length + l.length := by
  induction l generalizing p with
  | nil => simp
  | cons a rest ih =>
      simp only [List.foldl_cons, List.length_cons]
      refine le_trans (ih (p.addWallet a)) ?_
      have : (p.addWallet a).walletAddresses.length ≤
          p.walletAddresses.length + 1 := by
        unfold PoRCPool.addWallet
        split_ifs <;> simp
      omega

theorem buildPools_fields (height : Nat) :
    ∀ (n : Nat) (ws : List String), ws.length ≤ n → ∀ (idx : Nat),
      ∀ p ∈ buildPools height idx ws,
        p.walletAddresses.length ≤ PoRCConfig.POOL_SIZE ∧
        p.blockStart = height ∧
        p.blockEnd = height + PoRCConfig.POOL_ROTATION_BLOCKS ∧
        p.isActive = true := by
  intro n
  induction n with
  | zero =>
      intro ws hlen idx p hp
      have hws : ws = [] := List.eq_nil_of_length_eq_zero (Nat.le_zero.mp hlen)
      subst hws
      rw [buildPools] at hp
      cases hp
  | succ n ih =>
      intro ws hlen idx p hp
      cases ws with
      | nil =>
          rw [buildPools] at hp
          cases hp
      | cons w rest =>
          rw [buildPools] at hp
          rcases List.mem_cons.mp hp with rfl | hp'
          · obtain ⟨-, h2, h3, h4⟩ := foldl_addWallet_fields
              ((w :: rest).take PoRCConfig.POOL_SIZE) (basePool height idx)
            refine ⟨?_, h2, h3, h4⟩
            refine le_trans (foldl_addWallet_length _ _) ?_
            simp [basePool, List.length_take_le PoRCConfig.POOL_SIZE
              (w :: rest)]
          · refine ih _ ?_ (idx + 1) p hp'
            simp only [List.length_drop, List.length_cons,
              PoRCConfig.POOL_SIZE] at hlen ⊢
            omega

end Nilotic

namespace Nilotic

theorem buildPools_mem_keys (height : Nat) :
    ∀ (n : Nat) (ws : List String), ws.length ≤ n →
      ∀ (idx : Nat) (x : String) (p : PoRCPool),
        p ∈ buildPools height idx ws → x ∈ p.walletAddresses → x ∈ ws := by
  intro n
  induction n with
  | zero =>
      intro ws hlen idx x p hp _
      have hws : ws = [] :=
        List.eq_nil_of_length_eq_zero (Nat.le_zero.mp hlen)
      subst hws
      rw [buildPools] at hp
      cases hp
  | succ n ih =>
      intro ws hlen idx x p hp hx
      cases ws with
      | nil =>
          rw [buildPools] at hp
          cases hp
      | cons w rest =>
          rw [buildPools] at hp
          rcases List.mem_cons.mp hp with rfl | hp'
          · rcases (foldl_addWallet_mem _ (basePool height idx) x).mp hx
              with h | h
            · simp [basePool] at h
            · exact List.take_subset _ _ h
          · have hlen' : ((w :: rest).drop PoRCConfig.POOL_SIZE).length ≤
                n := by
              simp only [List.length_drop, List.length_cons,
                PoRCConfig.POOL_SIZE] at hlen ⊢
              omega
            exact List.drop_subset _ _ (ih _ hlen' (idx + 1) x p hp' hx)

theorem buildPools_countP (height : Nat) :
    ∀ (n : Nat) (ws : List String), ws.length ≤ n → ws.Nodup →
      ∀ (idx : Nat) (x : String), x ∈ ws →
        (buildPools height idx ws).countP
          (fun p => decide (x ∈ p.walletAddresses)) = 1 := by
  intro n
  induction n with
  | zero =>
      intro ws hlen _ idx x hx
      have hws : ws = [] :=
        List.eq_nil_of_length_eq_zero (Nat.le_zero.mp hlen)
      subst hws
      cases hx
  | succ n ih =>
      intro ws hlen hnd idx x hx
      cases ws with
      | nil => cases hx
      | cons w rest =>
          rw [buildPools, List.countP_cons]
          have hsplit : (w :: rest).take PoRCConfig.POOL_SIZE ++
              (w :: rest).drop PoRCConfig.POOL_SIZE = w :: rest :=
            List.take_append_drop _ _
          have hnd' : ((w :: rest).take PoRCConfig.POOL_SIZE ++
              (w :: rest).drop PoRCConfig.POOL_SIZE).Nodup := by
            rw [hsplit]
            exact hnd
          obtain ⟨hndc, hndt, hdisj⟩ := List.nodup_append.mp hnd'
          have hmem : x ∈ (w :: rest).take PoRCConfig.POOL_SIZE ∨
              x ∈ (w :: rest).drop PoRCConfig.POOL_SIZE := by
            rw [← hsplit] at hx
            exact List.mem_append.mp hx
          have hpool0 : x ∈ (((w :: rest).take PoRCConfig.POOL_SIZE).foldl
              PoRCPool.addWallet (basePool height idx)).walletAddresses ↔
              x ∈ (w :: rest).take PoRCConfig.POOL_SIZE := by
            rw [foldl_addWallet_mem]
            simp [basePool]
          have hlen' : ((w :: rest).drop PoRCConfig.POOL_SIZE).length ≤
              n := by
            simp only [List.length_drop, List.length_cons,
              PoRCConfig.POOL_SIZE] at hlen ⊢
            omega
          rcases hmem with hc | ht
          · have h1 : decide (x ∈ (((w :: rest).take
                PoRCConfig.POOL_SIZE).foldl PoRCPool.addWallet
                (basePool height idx)).walletAddresses) = true :=
              decide_eq_true (hpool0.mpr hc)
            have hxt : x ∉ (w :: rest).drop PoRCConfig.POOL_SIZE :=
              fun h => hdisj hc h
            have h0 : (buildPools height (idx + 1)
                ((w :: rest).drop PoRCConfig.POOL_SIZE)).countP
                (fun p => decide (x ∈ p.walletAddresses)) = 0 := by
              rw [List.countP_eq_zero]
              intro p hp
              simp only [decide_eq_true_eq]
              intro hxp
              exact hxt (buildPools_mem_keys height n _ hlen' (idx + 1) x p
                hp hxp)
            rw [h0, h1]
            rfl
          · have hxc : x ∉ (w :: rest).take PoRCConfig.POOL_SIZE :=
              fun h => hdisj h ht
            have h1 : decide (x ∈ (((w :: rest).take
                PoRCConfig.POOL_SIZE).foldl PoRCPool.addWallet
                (basePool height idx)).walletAddresses) = false :=
              decide_eq_false (fun h => hxc (hpool0.mp h))
            rw [ih _ hlen' hndt (idx + 1) x ht, h1]
            rfl

/-- C8: after `rotatePools`, every currently-enabled wallet belongs to
exactly one pool, no pool holds more than `POOL_SIZE` addresses, and every
new pool records `block_start = current_height`,
`block_end = current_height + POOL_ROTATION_BLOCKS` and
`is_active = true` — assuming the wallet-status map has unique keys (a
`std::map` invariant). -/
theorem c8_rotatePools (s : PoRCState)
    (hnd : (s.walletStatuses.map (fun q => q.1)).Nodup) :
    (∀ a ∈ (s.walletStatuses.filter (fun q => q.2.isEnabled)).map
        (fun q => q.1),
      ((rotatePools s).pools.countP
        (fun p => decide (a ∈ p.walletAddresses))) = 1) ∧
    (∀ p ∈ (rotatePools s).pools,
      p.walletAddresses.length ≤ PoRCConfig.POOL_SIZE ∧
      p.blockStart = s.currentBlockHeight ∧
      p.blockEnd = s.currentBlockHeight + PoRCConfig.POOL_ROTATION_BLOCKS ∧
      p.isActive = true) := by
  have hennd : (((s.walletStatuses.filter (fun q => q.2.isEnabled)).map
      (fun q => q.1))).Nodup :=
    List.Nodup.sublist (List.Sublist.map _ (List.filter_sublist _)) hnd
  constructor
  · intro a ha
    exact buildPools_countP s.currentBlockHeight _ _ le_rfl hennd 0 a ha
  · intro p hp
    exact buildPools_fields s.currentBlockHeight _ _ le_rfl 0 p hp

/-- Enabled wallet for the C8 witness. -/
def c8WalletA : PoRCWalletStatus :=
  { address := "A", isEnabled := true, totalResourcePoints := 0,
    totalRewards := 0, lastContribution := 0, reputationScore := 0,
    bandwidthLimit := 50, isEarlyAdopter := true, poolIndex := 0 }

/-- Disabled wallet for the C8 witness. -/
def c8WalletB : PoRCWalletStatus :=
  { address := "B", isEnabled := false, totalResourcePoints := 0,
    totalRewards := 0, lastContribution := 0, reputationScore := 0,
    bandwidthLimit := 50, isEarlyAdopter := false, poolIndex := 1 }

/-- Stats block of the C8 witness state. -/
def c8Stats : PoRCStats :=
  { totalWallets := 2, activeWallets := 1, totalResourcePoints := 0,
    totalRewardsDistributed := 0, totalBurned := 0,
    currentBlockReward := 0, activePools := 0, averageBandwidth := 0,
    averageUptime := 0 }

/-- A PoRC state with one enabled and one disabled wallet. -/
def c8State : PoRCState :=
  { pools := [], walletStatuses := [("A", c8WalletA), ("B", c8WalletB)],
    pendingContributions := [], stats := c8Stats,
    currentBlockHeight := 30, totalWalletsRegistered := 2 }

/-- C8 witness: the theorem applied at `c8State` — the enabled wallet "A"
lands in exactly one pool. -/
theorem c8_rotatePools_witness :
    ((rotatePools c8State).pools.countP
      (fun p => decide ("A" ∈ p.walletAddresses))) = 1 :=
  (c8_rotatePools c8State (by decide)).1 "A" (by decide)

end Nilotic

namespace Nilotic

/-- A JSON value, as manipulated through `nlohmann::json`.  Real nlohmann
objects keep their keys sorted; the model keeps insertion order, which is
indistinguishable here because every access is by key. -/
inductive Json where
  | null
  | bool (b : Bool)
  | num (q : ℚ)
  | str (s : String)
  | arr (xs : List Json)
  | obj (fields : List (String × Json))

/-- JSON string escaping for `dump` (quotes and backslashes). -/
def escapeJson (s : String) : String :=
  s.data.foldl (fun acc c =>
    acc ++ (if c = '"' then "\\\""
      else if c = '\\' then "\\\\"
      else String.singleton c)) ""

mutual

/-- `nlohmann::json::dump` (whitespace/pretty-printing abstracted away;
none of the theorems depends on the exact text, because every dumped
string that is parsed again is modelled by the identity on the tree). -/
def Json.dump : Json → String
  | .null => "null"
  | .bool b => if b then "true" else "false"
  | .num q => toString q
  | .str s => "\"" ++ escapeJson s ++ "\""
  | .arr xs => "[" ++ Json.dumpList xs ++ "]"
  | .obj fs => "\x7b" ++ Json.dumpFields fs ++ "\x7d"

def Json.dumpList : List Json → String
  | [] => ""
  | [x] => Json.dump x
  | x :: y :: xs => Json.dump x ++ "," ++ Json.dumpList (y :: xs)

def Json.dumpFields : List (String × Json) → String
  | [] => ""
  | [(k, v)] => "\"" ++ escapeJson k ++ "\":" ++ Json.dump v
  | (k, v) :: q :: xs =>
      "\"" ++ escapeJson k ++ "\":" ++ Json.dump v ++ "," ++
        Json.dumpFields (q :: xs)

end

/-- Non-const `j[key]`: the stored value (or `null` after
default-insertion) when `j` is an object or null; `type_error.305` on any
other type — in particular on a JSON **string**. -/
def Json.getKey : Json → String → Except String Json
  | .obj fs, k => .ok (match fs.find? (fun p => p.1 == k) with
      | some p => p.2
      | none => Json.null)
  | .null, _ => .ok Json.null
  | _, _ => .error "type_error.305: cannot use subscript with this type"

/-- `get<std::string>()`. -/
def Json.asString : Json → Except String String
  | .str s => .ok s
  | _ => .error "type_error.302: type must be string"

/-- `get<double>()` / `get<uint64_t>()` / `get<time_t>()`. -/
def Json.asNum : Json → Except String ℚ
  | .num q => .ok q
  | _ => .error "type_error.302: type must be number"

/-- `get<bool>()`. -/
def Json.asBool : Json → Except String Bool
  | .bool b => .ok b
  | _ => .error "type_error.302: type must be boolean"

/-- An array's elements (range-`for` over a json array). -/
def Json.asArr : Json → Except String (List Json)
  | .arr xs => .ok xs
  | _ => .error "type_error.302: type must be array"

/-- An object's fields (`.items()`). -/
def Json.asObj : Json → Except String (List (String × Json))
  | .obj fs => .ok fs
  | _ => .error "type_error.302: type must be object"

/-- `j.contains(key)`. -/
def Json.contains : Json → String → Bool
  | .obj fs, k => fs.any (fun p => p.1 == k)
  | _, _ => false

/-- `Transaction::serialize` followed by `nlohmann::json::parse`, i.e. the
JSON tree the serialized text denotes (`include/core/transaction.h`,
lines 137-156): contract fields only when non-empty. -/
def Transaction.toJson (t : Transaction) : Json :=
  Json.obj ([("sender", Json.str t.sender),
    ("recipient", Json.str t.recipient),
    ("amount", Json.num t.amount),
    ("timestamp", Json.num (t.timestamp : ℚ)),
    ("hash", Json.str t.hash),
    ("signature", Json.str t.signature),
    ("isOffline", Json.bool t.isOffline)] ++
    (if t.contractCode ≠ "" then [("contractCode", Json.str t.contractCode)]
     else []) ++
    (if t.contractState ≠ ""
     then [("contractState", Json.str t.contractState)] else []))

/-- The non-contract tail of `Transaction::deserialize`: read the offline
flag, rebuild the transaction, and overwrite timestamp, hash and
signature from the JSON. -/
def Transaction.fromJsonRegular (j : Json) (s r : String) (a : ℚ) :
    Except String Transaction := do
  let offline ← if j.contains "isOffline" = true then
      (← j.getKey "isOffline").asBool
    else pure false
  let ts ← (← j.getKey "timestamp").asNum
  let h ← (← j.getKey "hash").asString
  let sig ← (← j.getKey "signature").asString
  let t : Transaction :=
    { sender := s, recipient := r, amount := a,
      timestamp := ts.floor, hash := h, signature := sig,
      isOffline := offline, contractCode := "", contractState := "" }
  return t

/-- `Transaction::deserialize` (`include/core/transaction.h`,
lines 159-192) applied to the parse of its input text, i.e. working on
the JSON tree; exceptions become `Except.error`. -/
def Transaction.fromJson (j : Json) : Except String Transaction := do
  let s ← (← j.getKey "sender").asString
  let r ← (← j.getKey "recipient").asString
  let a ← (← j.getKey "amount").asNum
  if j.contains "contractCode" = true then
    let code ← (← j.getKey "contractCode").asString
    if code ≠ "" then
      let ts ← (← j.getKey "timestamp").asNum
      let h ← (← j.getKey "hash").asString
      let sig ← (← j.getKey "signature").asString
      let cs ← if j.contains "contractState" = true then
          (← j.getKey "contractState").asString
        else pure ""
      let t : Transaction :=
        { sender := s, recipient := "CONTRACT", amount := 0,
          timestamp := ts.floor, hash := h, signature := sig,
          isOffline := false, contractCode := code, contractState := cs }
      return t
    else
      Transaction.fromJsonRegular j s r a
  else
    Transaction.fromJsonRegular j s r a

/-- `Block::serialize` followed by `parse` (`include/core/block.h`,
lines 128-149).  The source pushes `tx.serialize()` — a *string*, not a
parsed object — into the `transactions` array; the model reproduces that
faithfully with `Json.str (…).dump`. -/
def Block.toJson (b : Block) : Json :=
  Json.obj [("index", Json.num (b.index : ℚ)),
    ("timestamp", Json.num (b.timestamp : ℚ)),
    ("previousHash", Json.str b.previousHash),
    ("hash", Json.str b.hash),
    ("nonce", Json.num (b.nonce : ℚ)),
    ("merkleRoot", Json.str b.merkleRoot),
    ("validator", Json.str b.validator),
    ("signature", Json.str b.signature),
    ("transactions", Json.arr (b.transactions.map (fun t =>
      Json.str (Json.dump (t.toJson)))))]

/-- `Block::deserialize` (`include/core/block.h`, lines 152-178) on the
JSON tree.  For each element `e` of `transactions` the source calls
`Transaction::deserialize(e.dump())`, and parsing a dump returns the very
same tree, so the model passes `e` through. -/
def Block.fromJson (j : Json) : Except String Block := do
  let idx ← (← j.getKey "index").asNum
  let prev ← (← j.getKey "previousHash").asString
  let ts ← (← j.getKey "timestamp").asNum
  let h ← (← j.getKey "hash").asString
  let nonce ← (← j.getKey "nonce").asNum
  let mr ← (← j.getKey "merkleRoot").asString
  let v ← if j.contains "validator" = true then
      (← j.getKey "validator").asString
    else pure ""
  let sg ← if j.contains "signature" = true then
      (← j.getKey "signature").asString
    else pure ""
  let txsJson ← (← j.getKey "transactions").asArr
  let txs ← txsJson.mapM Transaction.fromJson
  let b : Block :=
    { index := idx.floor.toNat, previousHash := prev,
      timestamp := ts.floor, transactions := txs, merkleRoot := mr,
      nonce := nonce.floor.toNat, hash := h, validator := v,
      signature := sg }
  return b

/-- `Blockchain::saveToFile` (`include/core/blockchain.h`,
lines 335-386): the JSON document written to disk (file I/O transports
the text unchanged, so the document itself is the model's output). -/
def Blockchain.saveJson (s : BCState) : Json :=
  Json.obj [
    ("blocks", Json.arr (s.chain.map Block.toJson)),
    ("balances", Json.obj (s.balances.map (fun p => (p.1, Json.num p.2)))),
    ("pendingTransactions",
      Json.arr (s.pendingTransactions.map Transaction.toJson)),
    ("validators",
      Json.obj (s.validators.map (fun p => (p.1, Json.num p.2)))),
    ("difficulty", Json.num (s.difficulty : ℚ)),
    ("miningReward", Json.num s.miningReward)]

/-- The block-loading loop of `loadFromFile`: pushes blocks until the
first deserialization exception, which surfaces with the partial chain. -/
def loadChain : List Json → List Block →
    Except (String × List Block) (List Block)
  | [], acc => .ok acc
  | bj :: rest, acc =>
      match Block.fromJson bj with
      | .ok b => loadChain rest (acc ++ [b])
      | .error e => .error (e, acc)

/-- The balance-loading loop: `balances[address] = value`. -/
def loadBalancesLoop : List (String × Json) → List (String × ℚ) →
    Except (List (String × ℚ)) (List (String × ℚ))
  | [], acc => .ok acc
  | p :: rest, acc =>
      match p.2.asNum with
      | .ok q => loadBalancesLoop rest (balSet acc p.1 q)
      | .error _ => .error acc

/-- The pending-transaction loading loop. -/
def loadPendingLoop : List Json → List Transaction →
    Except (List Transaction) (List Transaction)
  | [], acc => .ok acc
  | tj :: rest, acc =>
      match Transaction.fromJson tj with
      | .ok t => loadPendingLoop rest (acc ++ [t])
      | .error _ => .error acc

/-- `Blockchain::loadFromFile` (`include/core/blockchain.h`,
lines 389-443): clears the ledger, then loads section by section; any
exception is caught, `false` is returned, and the ledger keeps whatever
was mutated up to that point.  (Files produced by `saveToFile` always
carry every key with the type the loader expects, which is the only path
the theorems evaluate.) -/
def loadFromFile (j : Json) (s : BCState) : Bool × BCState :=
  let s0 : BCState :=
    { s with
        chain := [], pendingTransactions := [],
        balances := [], validators := [] }
  match (j.getKey "blocks").bind Json.asArr with
  | .error _ => (false, s0)
  | .ok blocksJson =>
    match loadChain blocksJson [] with
    | .error (_, part) => (false, { s0 with chain := part })
    | .ok chain =>
      let s1 : BCState := { s0 with chain := chain }
      match (j.getKey "balances").bind Json.asObj with
      | .error _ => (false, s1)
      | .ok bf =>
        match loadBalancesLoop bf [] with
        | .error part => (false, { s1 with balances := part })
        | .ok bals =>
          let s2 : BCState := { s1 with balances := bals }
          match (j.getKey "pendingTransactions").bind Json.asArr with
          | .error _ => (false, s2)
          | .ok pjson =>
            match loadPendingLoop pjson [] with
            | .error part => (false, { s2 with pendingTransactions := part })
            | .ok pend =>
              let s3 : BCState := { s2 with pendingTransactions := pend }
              match (j.getKey "validators").bind Json.asObj with
              | .error _ => (false, s3)
              | .ok vf =>
                match loadBalancesLoop vf [] with
                | .error part => (false, { s3 with validators := part })
                | .ok vals =>
                  let s4 : BCState := { s3 with validators := vals }
                  match (j.getKey "difficulty").bind Json.asNum with
                  | .error _ => (false, s4)
                  | .ok d =>
                    let s5 : BCState :=
                      { s4 with difficulty := d.floor.toNat }
                    match (j.getKey "miningReward").bind Json.asNum with
                    | .error _ => (false, s5)
                    | .ok r => (true, { s5 with miningReward := r })

/-- The genesis coinbase transaction of the C9 failing input. -/
def c9GenesisTx : Transaction :=
  { sender := "COINBASE", recipient := "GENESIS", amount := 1000,
    timestamp := 1700000000, hash := "h0", signature := "",
    isOffline := false, contractCode := "", contractState := "" }

/-- The genesis block of the C9 failing input. -/
def c9Genesis : Block :=
  { index := 0, previousHash := "0", timestamp := 1700000000,
    transactions := [c9GenesisTx], merkleRoot := "m0", nonce := 0,
    hash := "G", validator := "", signature := "" }

/-- A genesis-only ledger (every freshly constructed `Blockchain` holds a
chain of this shape: one block carrying one coinbase transaction). -/
def c9State : BCState :=
  { chain := [c9Genesis], pendingTransactions := [], difficulty := 4,
    miningReward := 100, balances := [("GENESIS", 1000)],
    contracts := [], validators := [] }

/-- C9: the snapshot round-trip FAILS on the very first ledger a node
ever has.  `Block::serialize` stores each transaction as a JSON *string*;
on load, `Block::deserialize` hands each such string to
`Transaction::deserialize`, which indexes into a non-object and throws
`type_error.305`; `loadFromFile` catches it and returns `false` — after
having cleared the ledger, whose chain is now empty instead of equal to
the original. -/
theorem c9_roundtrip_fails :
    (loadFromFile (Blockchain.saveJson c9State) c9State).1 = false ∧
    (loadFromFile (Blockchain.saveJson c9State) c9State).2.chain = [] ∧
    (loadFromFile (Blockchain.saveJson c9State) c9State).2.chain ≠
      c9State.chain := by
  refine ⟨by decide, by decide, by decide⟩

end Nilotic
